import Mathlib

/-!
Shallow embedding of the clinical multi-agent discussion engine
(`src/discussion/discussion_engine.py`), the agent base layer
(`src/agents/base_agent.py`, `src/agents/specialty_agents.py`) and the
session handler (`src/auth/session_handler.py`).

LLM backend calls (`AgentHelper.invoke`) are external collaborators; their
outcomes are supplied by an environment (`Env`): for each call site the
environment yields either the returned text (`Except.ok`) or the raised
error message (`Except.error`).  Operator input at the blocking
checkpoints is likewise part of the environment.  Wall-clock timestamps
carried by the Python dicts are irrelevant to every property studied here
and are omitted; session-handler time is an explicit rational parameter.
-/

namespace ClinicalEngine

/-- A chat message dict `{"role": ..., "content": ...}`. -/
structure Msg where
  role : String
  content : String
deriving Repr, DecidableEq

/-- `src/auth/session_handler.py` `SessionData` (the fields the studied
operations touch; `custom_agents`/`discussion_data`/preferences are
irrelevant payload here).  Times are seconds as rationals. -/
structure SessionData where
  user_id : String
  created_at : ℚ
  last_activity : ℚ
deriving Repr, DecidableEq

/-- The `SessionHandler`: timeout plus the `active_sessions` dict,
modelled as an association list with dict semantics (at most one binding
per key is what Python guarantees; lookups take the first binding and
deletion removes every binding of the key, which coincides with `del`). -/
structure SessionHandler where
  session_timeout : ℚ
  active_sessions : List (String × SessionData)
deriving Repr, DecidableEq

/-- Dict lookup `self.active_sessions.get(session_id)`. -/
def lookupSession (l : List (String × SessionData)) (sid : String) : Option SessionData :=
  (l.find? (fun p => p.1 = sid)).map (·.2)

/-- Dict deletion `del self.active_sessions[session_id]`. -/
def eraseSession (l : List (String × SessionData)) (sid : String) : List (String × SessionData) :=
  l.filter (fun p => ¬ p.1 = sid)

/-- In-place mutation `session_data.last_activity = now` of the stored object. -/
def touchSession (l : List (String × SessionData)) (sid : String) (now : ℚ) :
    List (String × SessionData) :=
  l.map (fun p => if p.1 = sid then (p.1, { p.2 with last_activity := now }) else p)

/-- `SessionHandler.validate_session` (lines 94-120): unknown id → `(False, None)`;
`(now - last_activity).total_seconds() > session_timeout` → delete the entry and
return `(False, None)`; otherwise refresh `last_activity` to `now` and return
`(True, session_data)` (the handle reflects the refreshed object). -/
def validate_session (h : SessionHandler) (now : ℚ) (sid : String) :
    (Bool × Option SessionData) × SessionHandler :=
  match lookupSession h.active_sessions sid with
  | none => ((false, none), h)
  | some sd =>
      if h.session_timeout < now - sd.last_activity then
        ((false, none), { h with active_sessions := eraseSession h.active_sessions sid })
      else
        ((true, some { sd with last_activity := now }),
         { h with active_sessions := touchSession h.active_sessions sid now })

/-- `SessionHandler.get_session_data` (lines 138-149): plain dict `get`, no mutation. -/
def get_session_data (h : SessionHandler) (sid : String) : Option SessionData :=
  lookupSession h.active_sessions sid

/-! ## Discussion data model (`discussion_engine.py`) -/

/-- Result dict of `SpecialtyAgent.analyze_clinical_case`: on success
`{"success": True, "concise_analysis": ..., ...}`, on a caught exception
`{"success": False, "error": str(e), ...}`.  `diagnosis` mirrors the key
probed by `_score_diagnosis_completeness`; no code path of the engine ever
writes it. -/
structure AnalysisResult where
  success : Bool
  concise_analysis : Option String
  error : Option String
  diagnosis : Option String := none
deriving Repr, DecidableEq

/-- One entry of a round's `contributions` list.  Normal rounds append
`{"agent", "contribution": <AnalysisResult>, "timestamp"}`; broadcast rounds
append `{"agent", "response"}` on success or `{"agent", "error"}` on failure.
Absent dict keys are `none`. -/
structure Contribution where
  agent : String
  contribution : Option AnalysisResult := none
  response : Option String := none
  error : Option String := none
  logic_report : Option String := none
deriving Repr, DecidableEq

/-- The `"type"` tag of a round dict: `"normal"` (default), `"broadcast_question"`
or `"intervention"`. -/
inductive RoundType where
  | normal
  | broadcastQuestion
  | interventionRound
deriving Repr, DecidableEq

/-- A round dict of `discussion_log`.  `roundNum` is the integer `"round"`
field of normal rounds (synthetic rounds carry a string id the digest never
reads).  `logicReports` mirrors the `"logic_reports"` list (one `has_issues`
flag per report); the engine initializes it empty and never fills it. -/
structure RoundLog where
  roundNum : Nat
  rtype : RoundType
  question : Option String := none
  contributions : List Contribution
  logicReports : List Bool := []
deriving Repr, DecidableEq

/-- Payload of a user intervention, as produced by `_get_intervention_details`. -/
inductive InterventionData where
  | questionToAgent (targetAgent : String) (question : String)
  | broadcastQuestion (question : String)
  | addInformation (information : String)
  | skipRound
  | interrupt
deriving Repr, DecidableEq

/-- The `"type"` string of an intervention dict. -/
def InterventionData.typeString : InterventionData → String
  | .questionToAgent _ _ => "question_to_agent"
  | .broadcastQuestion _ => "broadcast_question"
  | .addInformation _ => "add_information"
  | .skipRound => "skip_round"
  | .interrupt => "interrupt"

/-- A record appended to `self.user_interventions` by
`_handle_user_intervention` (lines 715-720): `{"type", "timestamp", "data"}`. -/
structure InterventionRecord where
  itype : String
  data : InterventionData
deriving Repr, DecidableEq

/-- A `BaseAgent` as the engine sees it: identity plus the mutable
`self.messages` list (initially the lone system message). -/
structure Agent where
  name : String
  specialty : String
  systemInstruction : String
  messages : List Msg
deriving Repr, DecidableEq

/-- `BaseAgent.set_shared_history` (base_agent.py lines 224-231): keep the
leading system message if there is one and replace the rest with a copy of
`shared_messages`. -/
def Agent.set_shared_history (a : Agent) (shared : List Msg) : Agent :=
  match a.messages with
  | m :: _ => if m.role = "system" then { a with messages := m :: shared }
              else { a with messages := shared }
  | [] => { a with messages := shared }

/-- The update message built by `BaseAgent.update_context` for the default
`information_type="general"` (description `补充信息`). -/
def updateContextMessage (information : String) : String :=
  "用户提供了新的补充信息：" ++ information ++ "\n\n请基于这个新信息重新评估您之前的分析。"

/-- `BaseAgent.update_context` (lines 288-321): appends the update message
to `self.messages` as a user turn. -/
def Agent.update_context (a : Agent) (information : String) : Agent :=
  { a with messages := a.messages ++ [⟨"user", updateContextMessage information⟩] }

/-- Word accumulator for Python `str.split()`: whitespace runs separate
words, empty words are dropped. -/
def wordsAux : List Char → List Char → List String
  | [], acc => if acc.isEmpty then [] else [String.mk acc.reverse]
  | c :: cs, acc =>
      if c.isWhitespace then
        if acc.isEmpty then wordsAux cs []
        else String.mk acc.reverse :: wordsAux cs []
      else wordsAux cs (c :: acc)

/-- Python `str.split()` (split on whitespace runs, dropping empties), as
used by `_make_response_concise`. -/
def pySplitWhitespace (s : String) : List String :=
  wordsAux s.data []

/-- `SpecialtyAgent._make_response_concise` (specialty_agents.py lines 156-165):
responses of at most 400 whitespace-words pass through; longer ones keep the
first and last 50 words plus a marker. -/
def make_response_concise (response : String) : String :=
  let words := pySplitWhitespace response
  if words.length ≤ 400 then response
  else String.intercalate " " (words.take 50 ++ words.drop (words.length - 50)) ++ "...[内容已精简]"

/-! ## The shared-context digest (`_get_current_discussion_context`, lines 751-793) -/

/-- `analysis[:150] + "..." if len(analysis) > 150 else analysis` (and the same
for broadcast responses). -/
def shorten150 (s : String) : String :=
  if 150 < s.length then s.take 150 ++ "..." else s

/-- The per-round header line appended to `context_text`: normal rounds use
`round_data.get("round", 0) + 1` (an off-by-one the source carries), the
synthetic round types use fixed captions. -/
def roundHeader (rd : RoundLog) : String :=
  match rd.rtype with
  | .normal => "第" ++ toString (rd.roundNum + 1) ++ "轮讨论:"
  | .broadcastQuestion => "广播提问轮次:"
  | .interventionRound => "用户介入轮次:"

/-- The text the digest extracts from one contribution: `response` for
broadcast rounds, else the nested `contribution.concise_analysis`; absent
keys default to `""`. -/
def contribDigestText (rt : RoundType) (c : Contribution) : String :=
  match rt with
  | .broadcastQuestion => c.response.getD ""
  | _ => ((c.contribution.map (fun ar => ar.concise_analysis.getD "")).getD "")

/-- The digest line for one contribution; empty texts are skipped (`if analysis:`). -/
def contribLine (rt : RoundType) (c : Contribution) : Option String :=
  let t := contribDigestText rt c
  if t = "" then none else some ("  " ++ c.agent ++ ": " ++ shorten150 t)

/-- All `context_text` lines one round contributes: its header, then one line
per nonempty contribution. -/
def roundLines (rd : RoundLog) : List String :=
  roundHeader rd :: rd.contributions.filterMap (contribLine rd.rtype)

/-- Python's `l[-n:]`. -/
def lastN {α : Type} (n : Nat) (l : List α) : List α := l.drop (l.length - n)

/-- The flat `context_text` list built from `self.discussion_log[-3:]`. -/
def contextTextLines (log : List RoundLog) : List String :=
  (lastN 3 log).flatMap roundLines

/-- The sentinel returned when `context_text` stays empty. -/
def noHistoryMsg : Msg := ⟨"system", "这是第一轮讨论，暂无历史记录"⟩

/-- `_get_current_discussion_context`: a single system message holding the
joined `context_text`, or the sentinel when there is nothing to summarize. -/
def get_current_discussion_context (log : List RoundLog) : List Msg :=
  let ct := contextTextLines log
  if ct = [] then [noHistoryMsg]
  else [⟨"system", "之前的讨论摘要:\n" ++ String.intercalate "\n" ct⟩]

/-! ## The analyze path (`SpecialtyAgent.analyze_clinical_case`, lines 85-136) -/

/-- `_format_discussion_history_for_prompt` applied to what the engine passes
it — a list of message dicts.  Message dicts carry no `"round"`/`"contributions"`
keys, so each of the last six entries yields only the fallback-numbered header
and no contribution lines. -/
def format_discussion_history_for_prompt (history : List Msg) : String :=
  if history = [] then "暂无讨论历史"
  else
    let hs := (List.range (min history.length 6)).map
      (fun i => "第" ++ toString (i + 1) ++ "轮讨论:")
    if hs = [] then "暂无相关讨论历史" else String.intercalate "\n" hs

/-- The user message `analyze_clinical_case` builds (f-string of lines 96-111,
with its literal indentation). -/
def analyzeMessage (specialty medicalText historyContext promptSection : String) : String :=
  "基于以下病例信息和讨论历史，请从" ++ specialty ++ "角度提供专业分析：\n\n    【病历信息】\n    "
    ++ medicalText ++ "\n\n    【讨论历史】\n    " ++ historyContext
    ++ "\n\n    【要求】\n    请用500字以内简洁回答，可以包含：\n    1. 涉及机制判断及理由\n    2. 诊断和鉴别诊断建议及理由  \n    3. 治疗建议及理由\n    4. 检查建议及理由\n    "
    ++ promptSection
    ++ "\n    请专注于" ++ specialty ++ "专业领域，根据上述要点进行总结回答，不用分点，提供精炼的专业汇总意见。"

/-- The round-specific directive the engine passes as `specific_prompt`
(discussion_engine.py line 438). -/
def analysisPromptFor (agentName : String) : String :=
  "作为" ++ agentName ++ "专家，请基于之前所有讨论内容进行深度分析..."

/-- `analyze_clinical_case`: re-set the shared history (when nonempty), build the
message, run `self.chat` — which appends the user turn, calls the backend and
appends the assistant turn on success; on failure `chat` re-raises after the
user turn is already appended and `analyze_clinical_case` catches, returning the
failure dict.  Returns (mutated agent, result dict, the message list handed to
`invoke`). -/
def analyze_clinical_case (a : Agent) (medicalText : String) (history : List Msg)
    (specificPrompt : String) (outcome : Except String String) :
    Agent × AnalysisResult × List Msg :=
  let a1 := if history = [] then a else a.set_shared_history history
  let historyContext := format_discussion_history_for_prompt history
  let promptSection := if specificPrompt = "" then "" else "\n" ++ specificPrompt
  let message := analyzeMessage a1.specialty medicalText historyContext promptSection
  let sent := a1.messages ++ [⟨"user", message⟩]
  match outcome with
  | .ok resp =>
      ({ a1 with messages := sent ++ [⟨"assistant", resp⟩] },
       { success := true, concise_analysis := some (make_response_concise resp), error := none },
       sent)
  | .error e =>
      ({ a1 with messages := sent },
       { success := false, concise_analysis := none, error := some e },
       sent)

/-! ## Engine state and environment -/

/-- The mutable state of `ClinicalDiscussionEngine` that the studied code
paths read or write.  `promptTrace` and `handledTrace` are observation logs of
the engine's external effects: `promptTrace` records each message list handed
to `invoke` by a round's `analyze_clinical_case` call (round, agent, messages);
`handledTrace` records each intervention dict `_handle_user_intervention` was
invoked on, in order. -/
structure EngineState where
  isRunning : Bool
  currentRound : Nat
  maxRounds : Nat
  userParticipation : Bool
  skipRemainingAgents : Bool
  agents : List Agent
  discussionLog : List RoundLog
  userInterventions : List InterventionRecord
  medicalRecord : String
  questionText : String
  additionalInfo : List String
  status : Option String
  sharedDiscussionHistory : List Msg
  decisionAgentOk : Bool
  promptTrace : List (Nat × String × List Msg)
  handledTrace : List InterventionData
deriving Repr, DecidableEq

/-- The environment: outcomes of every external call and the operator's
choices at the blocking checkpoints.
`gen round agent` is the backend outcome of the agent's per-round analyze
call; `respond agent question` the outcome of `respond_to_user_question`;
`decisionGen message` the outcome of the decision agent's
`chat_without_history`; `interv round i` what `_get_blocking_user_intervention`
returns at the checkpoint after the agent at 0-based position `i`
(`none` = the operator pressed enter); `hasInputAfterRound r` what
`interface.has_user_input` reports at the between-round check. -/
structure Env where
  gen : Nat → String → Except String String
  respond : String → String → Except String String
  decisionGen : String → Except String String
  interv : Nat → Nat → Option InterventionData
  hasInputAfterRound : Nat → Bool

/-- The two messages `_add_to_shared_history` appends (lines 795-801). -/
def sharedHistoryEntries (agentName content : String) : List Msg :=
  [⟨"user", "请" ++ agentName ++ "专家发言"⟩,
   ⟨"assistant", agentName ++ ": " ++ content⟩]

/-- The `concise=True` truncation of `respond_to_user_question`
(specialty_agents.py lines 473-474). -/
def conciseTruncate (response : String) : String :=
  if 200 < response.length then response.take 200 ++ "...[回答已精简]" else response

/-- One broadcast contribution: success appends `{"agent", "response"}`,
failure `{"agent", "error"}` (engine lines 661-683). -/
def broadcastEntry (agentName : String) (outcome : Except String String) : Contribution :=
  match outcome with
  | .ok r => { agent := agentName, response := some (conciseTruncate r) }
  | .error e => { agent := agentName, error := some e }

/-- `_handle_user_intervention` (lines 597-727).  Returns the mutated state
and the boolean the engine uses to decide whether to abort the in-flight
round: `True` exactly for `skip_round` and `interrupt`, which `return True`
*before* the `intervention_record` append of lines 715-720 — so those two
kinds never reach `self.user_interventions`. -/
def handle_user_intervention (env : Env) (d : InterventionData) (st : EngineState) :
    EngineState × Bool :=
  let st := { st with handledTrace := st.handledTrace ++ [d] }
  match d with
  | .questionToAgent _ _ =>
      -- the target answers via `chat_without_history` (no agent-state mutation);
      -- only the record append survives in the state
      ({ st with userInterventions :=
          st.userInterventions ++ [⟨d.typeString, d⟩] }, false)
  | .broadcastQuestion q =>
      if q = "" then
        ({ st with userInterventions := st.userInterventions ++ [⟨d.typeString, d⟩] }, false)
      else
        let entries := st.agents.map (fun a => broadcastEntry a.name (env.respond a.name q))
        let sharedAdd := st.agents.flatMap (fun a =>
          match env.respond a.name q with
          | .ok r => sharedHistoryEntries a.name
              ("对广播问题的回应: " ++ (conciseTruncate r).take 200 ++ "...")
          | .error _ => [])
        let broadcastRound : RoundLog :=
          { roundNum := st.discussionLog.length + 1, rtype := .broadcastQuestion,
            question := some q, contributions := entries }
        ({ st with
            discussionLog := st.discussionLog ++ [broadcastRound],
            sharedDiscussionHistory := st.sharedDiscussionHistory ++ sharedAdd,
            userInterventions := st.userInterventions ++ [⟨d.typeString, d⟩] }, false)
  | .addInformation info =>
      if info = "" then
        ({ st with userInterventions := st.userInterventions ++ [⟨d.typeString, d⟩] }, false)
      else
        -- `_update_medical_context` appends to `medical_context["additional_info"]`
        -- and notifies every agent; the handler then notifies every agent again,
        -- so each agent's message list gains the update message twice
        ({ st with
            additionalInfo := st.additionalInfo ++ [info],
            agents := st.agents.map (fun a => (a.update_context info).update_context info),
            userInterventions := st.userInterventions ++ [⟨d.typeString, d⟩] }, false)
  | .skipRound => ({ st with skipRemainingAgents := true }, true)
  | .interrupt => ({ st with isRunning := false }, true)

/-! ## The round loop (`_execute_discussion_round`, lines 410-483) -/

/-- Process one agent's turn: `set_shared_history(current_history)`, then
`analyze_clinical_case` (which sets it again), record the contribution dict
(failures are caught *inside* `analyze_clinical_case`, so the entry always
carries a nested result dict), extend the shared history and the prompt
observation log. -/
def processAgent (env : Env) (r : Nat) (history : List Msg) (i : Nat) (a : Agent)
    (st : EngineState) : EngineState × Contribution :=
  let a1 := a.set_shared_history history
  let res :=
    analyze_clinical_case a1 st.medicalRecord history (analysisPromptFor a1.name) (env.gen r a1.name)
  ({ st with
      agents := st.agents.set i res.1,
      promptTrace := st.promptTrace ++ [(r, a1.name, res.2.2)],
      sharedDiscussionHistory := st.sharedDiscussionHistory ++
        sharedHistoryEntries a1.name (res.2.1.concise_analysis.getD "无分析结果") },
   { agent := a1.name, contribution := some res.2.1 })

/-- The `for agent_name, agent in self.agents.items():` loop over the 0-based
positions `idxs`.  A set `skip_remaining_agents` flag breaks the loop; after
each contribution, if intervention mode is on, the blocking checkpoint may
yield an intervention, and a handled `skip_round`/`interrupt` returns the
round log immediately (lines 466-473). -/
def roundLoop (env : Env) (r : Nat) (history : List Msg) :
    List Nat → EngineState → List Contribution → EngineState × List Contribution
  | [], st, acc => (st, acc)
  | i :: rest, st, acc =>
      if st.skipRemainingAgents then (st, acc)
      else
        match st.agents.get? i with
        | none => (st, acc)
        | some a =>
            let pr := processAgent env r history i a st
            let acc1 := acc ++ [pr.2]
            if pr.1.userParticipation then
              match env.interv r i with
              | some d =>
                  let hd := handle_user_intervention env d pr.1
                  if hd.2 ∧ (d = .interrupt ∨ d = .skipRound) then (hd.1, acc1)
                  else roundLoop env r history rest hd.1 acc1
              | none => roundLoop env r history rest pr.1 acc1
            else roundLoop env r history rest pr.1 acc1

/-- `_execute_discussion_round`: reset the skip flag, compute the digest once,
run every agent in order, return the round dict. -/
def execute_discussion_round (env : Env) (r : Nat) (st : EngineState) :
    EngineState × RoundLog :=
  let st := { st with skipRemainingAgents := false }
  let history := get_current_discussion_context st.discussionLog
  let res := roundLoop env r history (List.range st.agents.length) st []
  (res.1, { roundNum := r, rtype := .normal, contributions := res.2 })

/-- `_check_user_intervention` (lines 363-373): `False` unless intervention
mode is on, else whatever `has_user_input` reports. -/
def check_user_intervention (env : Env) (st : EngineState) (r : Nat) : Bool :=
  st.userParticipation && env.hasInputAfterRound r

/-- The `for round_num in range(1, self.max_rounds + 1)` loop of
`start_discussion`.  Each iteration sets `current_round` first and only then
tests `is_running`.  When `_check_user_intervention` fires, line 278 calls
`self._handle_user_intervention()` without its required argument — a
`TypeError` the outer handler turns into an error result; the boolean flags
that abort. -/
def runRounds (env : Env) : List Nat → EngineState → EngineState × Bool
  | [], st => (st, false)
  | r :: rest, st =>
      let st := { st with currentRound := r }
      if st.isRunning then
        let ex := execute_discussion_round env r st
        let st2 := { ex.1 with discussionLog := ex.1.discussionLog ++ [ex.2] }
        if check_user_intervention env st2 r then (st2, true)
        else runRounds env rest st2
      else (st, false)

/-! ## Final aggregation (`_generate_final_summary` / `DecisionMakersAgent`) -/

/-- Return dict of `DecisionMakersAgent.make_final_decision`
(specialty_agents.py lines 613-637): success wraps the response, any caught
exception yields `{"success": False, "error": ...}` — the method never raises. -/
structure DecisionOut where
  success : Bool
  final_decision : Option String := none
  error : Option String := none
deriving Repr, DecidableEq

/-- The `f"{agent}: {analysis}"` lines of `make_final_decision` lines 616-622:
only entries whose nested `contribution` dict exists and has truthy
`success`. -/
def decisionAnalyses (log : List RoundLog) : List String :=
  log.flatMap (fun rd => rd.contributions.filterMap (fun c =>
    match c.contribution with
    | some ar => if ar.success then some (c.agent ++ ": " ++ ar.concise_analysis.getD "") else none
    | none => none))

/-- `_build_decision_message` (lines 639-664); the wall-clock date line is
elided since no studied property reads it. -/
def build_decision_message (medicalRecord question : String) (analyses : List String) : String :=
  "作为临床决策专家，请基于以下多专科讨论结果，形成最终临床决策：\n\n【病历摘要】\n"
    ++ medicalRecord ++ "\n\n【讨论问题】  \n" ++ question
    ++ "\n\n【各专科意见汇总】\n" ++ String.intercalate "\n" analyses
    ++ "\n\n【决策要求】\n请提供结构化的最终建议：\n1. 综合诊断意见（按可能性排序，附支持证据）\n2. 推荐的多学科治疗方案（分阶段、分专科）\n3. 必要的辅助检查建议和优先级\n4. 后续治疗计划和预后评估\n5. 关键风险提示和跨专科注意事项\n\n请确保建议基于各专科专家的深度分析，并考虑患者的整体情况。不要包含个人签名。"

/-- `make_final_decision`: extract, build the message, one
`chat_without_history` call; failure is caught and reported in-band. -/
def make_final_decision (env : Env) (log : List RoundLog)
    (medicalRecord question : String) : DecisionOut :=
  let message := build_decision_message medicalRecord question (decisionAnalyses log)
  match env.decisionGen message with
  | .ok resp => { success := true, final_decision := some resp }
  | .error e => { success := false, error := some e }

/-- `_assess_discussion_quality` output: the six sub-scores with the overall
mean, or the `{"overall_score": 0, "error": ...}` dict produced when the body
raises (which happens exactly for the division by `len(self.agents)` when no
agents exist). -/
inductive Quality where
  | scores (diagnosis_completeness treatment_rationality integration_quality
      discussion_depth perspective_diversity logic_consistency : Nat)
      (overall_score : ℚ)
  | failed (message : String)
deriving Repr, DecidableEq

/-- `_assess_discussion_quality` (lines 884-917) with its helpers
`_score_diagnosis_completeness` (distinct `"diagnosis"` values, a key no
engine path writes), `_score_treatment_rationality` (constant 8) and
`_score_integration_quality` (constant 7).  `max(0, 10 - issues)` coincides
with truncated `Nat` subtraction. -/
def assess_discussion_quality (st : EngineState) : Quality :=
  if st.agents.length = 0 then .failed "integer division or modulo by zero"
  else
    let total := (st.discussionLog.map (fun rd => rd.contributions.length)).sum
    let unique := (st.discussionLog.flatMap (fun rd => rd.contributions.map (·.agent))).dedup.length
    let logicIssues := (st.discussionLog.flatMap (·.logicReports)).count true
    let dc := min 10 (st.discussionLog.flatMap (fun rd =>
      rd.contributions.filterMap (fun c => c.contribution.bind (·.diagnosis)))).dedup.length
    let dd := min 10 (total / st.agents.length)
    let pd := min 10 (unique * 2)
    let lc := 10 - logicIssues
    .scores dc 8 7 dd pd lc (((dc : ℚ) + 8 + 7 + dd + pd + lc) / 6)

/-- One backup-summary contribution `{"agent", "analysis"}`. -/
structure BackupContribution where
  agent : String
  analysis : String
deriving Repr, DecidableEq

/-- The shape of `_generate_final_summary`'s return value: the full summary
dict, or the `_generate_backup_summary` dict (whose keys differ: `"summary"`
instead of `"discussion_summary"`, no `"quality_assessment"`). -/
inductive SummaryOut where
  | full (discussion_summary : DecisionOut) (quality_assessment : Quality)
      (log : List RoundLog) (interventions : List InterventionRecord)
  | backup (summary : String) (contributions : List BackupContribution)
      (total_rounds total_contributions : Nat)
deriving Repr, DecidableEq

/-- `_generate_backup_summary` (lines 188-214): a pure fold over the recorded
round log — entries with a nested `contribution` dict are concatenated into a
fixed-format text.  No environment is consulted: no model call. -/
def generate_backup_summary (st : EngineState) : SummaryOut :=
  let contribs := st.discussionLog.flatMap (fun rd =>
    rd.contributions.filterMap (fun c =>
      c.contribution.map (fun ar => BackupContribution.mk c.agent (ar.concise_analysis.getD ""))))
  let text := "多专科讨论汇总：\n" ++
    String.join (contribs.map (fun bc => bc.agent ++ ": " ++ bc.analysis ++ "\n"))
  .backup text contribs st.currentRound contribs.length

/-- `_generate_final_summary` (lines 122-186): the backup summary is reached
only when `self.decision_agent is None`; a failing synthesis call is absorbed
by `make_final_decision` into a `success=False` dict that lands in
`discussion_summary` unchanged. -/
def generate_final_summary (env : Env) (st : EngineState) : SummaryOut :=
  if st.decisionAgentOk = false then generate_backup_summary st
  else
    .full (make_final_decision env st.discussionLog st.medicalRecord st.questionText)
      (assess_discussion_quality st) st.discussionLog st.userInterventions

/-! ## `start_discussion` (lines 255-325) -/

/-- `final_summary.get("discussion_summary", final_summary.get("summary", {}))`:
the full summary contributes its decision dict, the backup its text. -/
inductive ClinicalSummary where
  | decision (d : DecisionOut)
  | text (s : String)
deriving Repr, DecidableEq

/-- Project `clinical_summary` out of a summary dict. -/
def clinicalSummaryOf : SummaryOut → ClinicalSummary
  | .full fd _ _ _ => .decision fd
  | .backup t _ _ _ => .text t

/-- Project `evaluation_metrics` (`final_summary.get("quality_assessment", {})`). -/
def metricsOf : SummaryOut → Option Quality
  | .full _ qa _ _ => some qa
  | .backup _ _ _ _ => none

/-- `_collect_logic_reports` (lines 327-338): contributions carrying a
`"logic_report"` key, as (agent, round, report). -/
def collect_logic_reports (log : List RoundLog) : List (String × Nat × String) :=
  log.flatMap (fun rd => rd.contributions.filterMap (fun c =>
    c.logic_report.map (fun rep => (c.agent, rd.roundNum, rep))))

/-- The `complete_result` dict of lines 290-315 (uuid / wall-clock metadata
and derived lengths elided). -/
structure CompleteResult where
  rounds : Nat
  rounds_completed : Nat
  medicalRecord : String
  questionText : String
  discussion_log : List RoundLog
  user_interventions : List InterventionRecord
  logic_reports : List (String × Nat × String)
  clinical_summary : ClinicalSummary
  evaluation_metrics : Option Quality
deriving Repr, DecidableEq

/-- What `start_discussion` returns: the complete result, the
`_create_interrupted_result` dict (metadata `status="interrupted"` plus
`rounds_completed`, nothing else), or the `_create_error_result` dict. -/
inductive DiscussionResult where
  | completed (record : CompleteResult)
  | interrupted (rounds_completed : Nat)
  | errorResult (message : String)
deriving Repr, DecidableEq

/-- `start_discussion`: run the round loop; on normal exhaustion generate the
final summary, mark `medical_context["status"] = "completed"` and build the
complete result; if `is_running` was cleared, return the interrupted result.
The final state is returned alongside (with `is_running` cleared by the
`finally`). -/
def start_discussion (env : Env) (st0 : EngineState) : DiscussionResult × EngineState :=
  let stA := { st0 with isRunning := true, currentRound := 0 }
  let run := runRounds env (List.range' 1 stA.maxRounds) stA
  let st := run.1
  if run.2 then
    (.errorResult "TypeError", { st with isRunning := false })
  else if st.isRunning then
    let summary := generate_final_summary env st
    let st := { st with status := some "completed" }
    (.completed
      { rounds := st.currentRound, rounds_completed := st.currentRound,
        medicalRecord := st.medicalRecord, questionText := st.questionText,
        discussion_log := st.discussionLog,
        user_interventions := st.userInterventions,
        logic_reports := collect_logic_reports st.discussionLog,
        clinical_summary := clinicalSummaryOf summary,
        evaluation_metrics := metricsOf summary },
     { st with isRunning := false })
  else (.interrupted st.currentRound, { st with isRunning := false })

/-- Engine state after `__init__` + `initialize_discussion`: one agent per
selected name (each with its system prompt), empty logs,
`user_participation` from the discussion config. -/
def initState (participants : List (String × String)) (maxRounds : Nat)
    (userParticipation : Bool) (medicalRecord question : String)
    (decisionAgentOk : Bool) : EngineState :=
  { isRunning := false, currentRound := 0, maxRounds := maxRounds,
    userParticipation := userParticipation, skipRemainingAgents := false,
    agents := participants.map (fun p => ⟨p.1, p.1, p.2, [⟨"system", p.2⟩]⟩),
    discussionLog := [], userInterventions := [],
    medicalRecord := medicalRecord, questionText := question,
    additionalInfo := [], status := none, sharedDiscussionHistory := [],
    decisionAgentOk := decisionAgentOk, promptTrace := [], handledTrace := [] }

/-! ## Derived forms used by the theorems -/

/-- The result dict `analyze_clinical_case` returns for a given backend
outcome (it depends on nothing else). -/
def analysisResultOf : Except String String → AnalysisResult
  | .ok resp => { success := true, concise_analysis := some (make_response_concise resp), error := none }
  | .error e => { success := false, concise_analysis := none, error := some e }

/-- The contribution entry a round appends for the named agent. -/
def roundEntry (env : Env) (r : Nat) (name : String) : Contribution :=
  { agent := name, contribution := some (analysisResultOf (env.gen r name)) }

/-- The agent-name list of a state (stable under every engine operation). -/
def agentNames (st : EngineState) : List String := st.agents.map Agent.name

/-- Name at a 0-based position. -/
def nameAt (st : EngineState) (i : Nat) : String := (agentNames st).getD i ""

/-- Projection of a prompt-trace entry to (round, agent). -/
def traceHead (t : Nat × String × List Msg) : Nat × String := (t.1, t.2.1)

/-- The per-round dict a clean round appends. -/
def cleanRound (env : Env) (ns : List String) (r : Nat) : RoundLog :=
  { roundNum := r, rtype := .normal, contributions := ns.map (roundEntry env r) }

/-- The all-success environment with no operator activity, over given
analysis/answer/decision texts. -/
def envOk : Env :=
  ⟨fun _ n => .ok ("分析-" ++ n), fun _ _ => .ok "答", fun _ => .ok "终",
   fun _ _ => none, fun _ => false⟩

/-- `envOk` with the decision agent's one synthesis call failing. -/
def envFailSynth : Env :=
  ⟨fun _ n => .ok ("分析-" ++ n), fun _ _ => .ok "答", fun _ => .error "超时",
   fun _ _ => none, fun _ => false⟩

/-- `envOk` with the operator submitting `AddInformation` at the checkpoint
after the last (second) participant of round 1. -/
def envAddInfo : Env :=
  ⟨fun _ n => .ok ("分析-" ++ n), fun _ _ => .ok "答", fun _ => .ok "终",
   fun r i => if r = 1 && i = 1 then some (.addInformation "血钾6.1mmol/L") else none,
   fun _ => false⟩

/-- `envOk` with the operator submitting a `QuestionToParticipant` after the
first participant of round 1 and a `SkipRound` after the first participant of
round 2. -/
def envMixedInterv : Env :=
  ⟨fun _ n => .ok ("分析-" ++ n), fun _ _ => .ok "答", fun _ => .ok "终",
   fun r i =>
     if r = 1 && i = 0 then some (.questionToAgent "甲" "为什么")
     else if r = 2 && i = 0 then some .skipRound
     else none,
   fun _ => false⟩

/-- `envOk` with the operator submitting `SkipRound` at the checkpoint after
the first participant of round 1. -/
def envSkipR1 : Env :=
  ⟨fun _ n => .ok ("分析-" ++ n), fun _ _ => .ok "答", fun _ => .ok "终",
   fun r i => if r = 1 && i = 0 then some .skipRound else none,
   fun _ => false⟩

/-- Whether `_handle_user_intervention` reaches the recording step for this
kind: `skip_round` and `interrupt` return before it. -/
def nonSignal (d : InterventionData) : Bool :=
  match d with
  | .skipRound => false
  | .interrupt => false
  | _ => true

/-- The record `_handle_user_intervention` appends for a recorded kind. -/
def recordOf (d : InterventionData) : InterventionRecord := ⟨d.typeString, d⟩

/-- The engine-state invariant tying `user_interventions` to the handled
interventions: exactly the non-signal ones are recorded, in handling order. -/
def RecordsInvariant (st : EngineState) : Prop :=
  st.userInterventions = (st.handledTrace.filter nonSignal).map recordOf

/-- The fields of the engine state that one agent's turn (and a clean
checkpoint) leaves untouched. -/
def SameCore (st st' : EngineState) : Prop :=
  st'.isRunning = st.isRunning ∧ st'.currentRound = st.currentRound ∧
  st'.maxRounds = st.maxRounds ∧ st'.userParticipation = st.userParticipation ∧
  st'.discussionLog = st.discussionLog ∧ st'.userInterventions = st.userInterventions ∧
  st'.medicalRecord = st.medicalRecord ∧ st'.questionText = st.questionText ∧
  st'.additionalInfo = st.additionalInfo ∧ st'.status = st.status ∧
  st'.decisionAgentOk = st.decisionAgentOk ∧ st'.handledTrace = st.handledTrace ∧
  st'.agents.length = st.agents.length ∧
  agentNames st' = agentNames st

/-! ## Theorems: session lifecycle -/

theorem lookup_touch (l : List (String × SessionData)) (sid : String) (now : ℚ) :
    lookupSession (touchSession l sid now) sid =
      (lookupSession l sid).map (fun sd => { sd with last_activity := now }) := by
  induction l with
  | nil => rfl
  | cons p l ih =>
      by_cases hp : p.1 = sid
      · simp [lookupSession, touchSession, List.find?, hp]
      · simp only [touchSession] at ih ⊢
        simp [lookupSession, List.find?, hp] at ih ⊢
        exact ih

theorem lookup_erase (l : List (String × SessionData)) (sid : String) :
    lookupSession (eraseSession l sid) sid = none := by
  induction l with
  | nil => rfl
  | cons p l ih =>
      by_cases hp : p.1 = sid
      · simp only [eraseSession] at ih ⊢
        rw [show ((p :: l).filter (fun q => ¬ q.1 = sid)) = l.filter (fun q => ¬ q.1 = sid) by
          simp [List.filter, hp]]
        exact ih
      · simp only [eraseSession] at ih ⊢
        rw [show ((p :: l).filter (fun q => ¬ q.1 = sid)) = p :: l.filter (fun q => ¬ q.1 = sid) by
          simp [List.filter, hp]]
        simp only [lookupSession, List.find?] at ih ⊢
        simp [hp]

/-- C5: `validate_session` returns false exactly for an unknown id or an
inactivity gap strictly above the timeout; a gap of `timeout - ε` (ε > 0)
validates and one of `timeout + ε` does not; success rewrites
`last_activity` to `now`, so each successful read restarts the lease. -/
theorem c5_validate_sliding_expiration (h : SessionHandler) (now : ℚ) (sid : String) :
    ((validate_session h now sid).1.1 = false ↔
      lookupSession h.active_sessions sid = none ∨
      (∃ sd, lookupSession h.active_sessions sid = some sd ∧
        h.session_timeout < now - sd.last_activity))
    ∧ (∀ sd ε, lookupSession h.active_sessions sid = some sd → 0 < ε →
        now - sd.last_activity = h.session_timeout - ε →
        (validate_session h now sid).1.1 = true)
    ∧ (∀ sd ε, lookupSession h.active_sessions sid = some sd → 0 < ε →
        now - sd.last_activity = h.session_timeout + ε →
        (validate_session h now sid).1.1 = false)
    ∧ (∀ sd, lookupSession h.active_sessions sid = some sd →
        (validate_session h now sid).1.1 = true →
        get_session_data (validate_session h now sid).2 sid =
          some { sd with last_activity := now }) := by
  refine ⟨?_, ?_, ?_, ?_⟩
  · cases hfind : lookupSession h.active_sessions sid with
    | none => simp [validate_session, hfind]
    | some sd =>
        by_cases hexp : h.session_timeout < now - sd.last_activity
        · have hv : (validate_session h now sid).1.1 = false := by
            simp [validate_session, hfind, if_pos hexp]
          rw [hv]
          simp only [eq_self_iff_true, true_iff]
          exact Or.inr ⟨sd, rfl, hexp⟩
        · have hv : (validate_session h now sid).1.1 = true := by
            simp [validate_session, hfind, if_neg hexp]
          rw [hv]
          constructor
          · intro hc; exact absurd hc (by simp)
          · rintro (hnone | ⟨sd', hsd', hgt⟩)
            · exact Option.noConfusion hnone
            · injection hsd' with he
              subst he
              exact absurd hgt hexp
  · intro sd ε hsd hε hgap
    have hexp : ¬ h.session_timeout < now - sd.last_activity := by
      rw [hgap]; linarith
    simp [validate_session, hsd, if_neg hexp]
  · intro sd ε hsd hε hgap
    have hexp : h.session_timeout < now - sd.last_activity := by
      rw [hgap]; linarith
    simp [validate_session, hsd, if_pos hexp]
  · intro sd hsd hok
    by_cases hexp : h.session_timeout < now - sd.last_activity
    · simp [validate_session, hsd, if_pos hexp] at hok
    · simp [validate_session, get_session_data, hsd, if_neg hexp, lookup_touch]

/-- Witness for `c5_validate_sliding_expiration` at a concrete handler. -/
theorem c5_validate_sliding_expiration_witness :
    (validate_session ⟨10, [("s", ⟨"u", 0, 0⟩)]⟩ 9 "s").1.1 = true := by
  have h := (c5_validate_sliding_expiration ⟨10, [("s", ⟨"u", 0, 0⟩)]⟩ 9 "s").2.1
  exact h ⟨"u", 0, 0⟩ 1 (by decide) (by norm_num) (by norm_num)

/-- C10: a `validate_session` call on a session whose inactivity exceeds the
timeout deletes the entry on the spot: the call reports invalid, a subsequent
`get_session_data` is `None`, and any later `validate_session` — at any
clock — reports invalid, without any background sweep involved. -/
theorem c10_validate_expired_evicts (h : SessionHandler) (now : ℚ) (sid : String)
    (sd : SessionData) (hfind : lookupSession h.active_sessions sid = some sd)
    (hexp : h.session_timeout < now - sd.last_activity) :
    (validate_session h now sid).1.1 = false
    ∧ (validate_session h now sid).1.2 = none
    ∧ get_session_data (validate_session h now sid).2 sid = none
    ∧ ∀ now' : ℚ, (validate_session (validate_session h now sid).2 now' sid).1.1 = false := by
  refine ⟨by simp [validate_session, hfind, if_pos hexp],
          by simp [validate_session, hfind, if_pos hexp], ?_, ?_⟩
  · simp [validate_session, get_session_data, hfind, if_pos hexp, lookup_erase]
  · intro now'
    simp [validate_session, hfind, if_pos hexp, lookup_erase]

/-- Witness for `c10_validate_expired_evicts` at a concrete handler. -/
theorem c10_validate_expired_evicts_witness :
    get_session_data (validate_session ⟨10, [("s", ⟨"u", 0, 0⟩)]⟩ 11 "s").2 "s" = none :=
  (c10_validate_expired_evicts ⟨10, [("s", ⟨"u", 0, 0⟩)]⟩ 11 "s" ⟨"u", 0, 0⟩
    (by decide) (by norm_num)).2.2.1

/-! ## Theorems: round-scheduler infrastructure -/

theorem set_shared_history_name (a : Agent) (shared : List Msg) :
    (a.set_shared_history shared).name = a.name := by
  unfold Agent.set_shared_history
  cases a.messages with
  | nil => rfl
  | cons m rest => by_cases h : m.role = "system" <;> simp [h]

theorem analyze_result_eq (a : Agent) (mt : String) (hist : List Msg) (sp : String)
    (o : Except String String) :
    (analyze_clinical_case a mt hist sp o).2.1 = analysisResultOf o := by
  cases o <;> rfl

theorem analyze_agent_name (a : Agent) (mt : String) (hist : List Msg) (sp : String)
    (o : Except String String) :
    (analyze_clinical_case a mt hist sp o).1.name = a.name := by
  cases o <;> (
    simp only [analyze_clinical_case]
    by_cases h : hist = [] <;> simp [h, set_shared_history_name])

/-- `l.set i b` preserves `map f` when `f b` agrees with `f` of the element
already at `i`. -/
theorem map_set_eq {α β : Type} (f : α → β) (l : List α) (i : Nat) (a b : α)
    (hget : l.get? i = some a) (hf : f b = f a) : (l.set i b).map f = l.map f := by
  induction l generalizing i with
  | nil => simp
  | cons x xs ih =>
      cases i with
      | zero =>
          simp only [List.get?] at hget
          injection hget with hx
          subst hx
          simp [List.set, hf]
      | succ j =>
          simp only [List.get?] at hget
          simp [List.set, ih j hget]

theorem processAgent_snd (env : Env) (r : Nat) (hist : List Msg) (i : Nat) (a : Agent)
    (st : EngineState) :
    (processAgent env r hist i a st).2 = roundEntry env r a.name := by
  simp only [processAgent, roundEntry, analyze_result_eq, set_shared_history_name]

theorem processAgent_core (env : Env) (r : Nat) (hist : List Msg) (i : Nat) (a : Agent)
    (st : EngineState) (hget : st.agents.get? i = some a) :
    SameCore st (processAgent env r hist i a st).1
    ∧ (processAgent env r hist i a st).1.skipRemainingAgents = st.skipRemainingAgents
    ∧ (processAgent env r hist i a st).1.userParticipation = st.userParticipation
    ∧ (processAgent env r hist i a st).1.promptTrace.map traceHead =
        st.promptTrace.map traceHead ++ [(r, a.name)] := by
  refine ⟨⟨rfl, rfl, rfl, rfl, rfl, rfl, rfl, rfl, rfl, rfl, rfl, rfl, by simp [processAgent], ?_⟩,
    rfl, rfl, ?_⟩
  · simp only [processAgent, agentNames]
    exact map_set_eq Agent.name st.agents i a _ hget
      (by rw [analyze_agent_name, set_shared_history_name])
  · simp [processAgent, traceHead, set_shared_history_name]

theorem sameCore_refl (st : EngineState) : SameCore st st :=
  ⟨rfl, rfl, rfl, rfl, rfl, rfl, rfl, rfl, rfl, rfl, rfl, rfl, rfl, rfl⟩

theorem sameCore_trans {s1 s2 s3 : EngineState} (h1 : SameCore s1 s2) (h2 : SameCore s2 s3) :
    SameCore s1 s3 := by
  obtain ⟨a1, b1, c1, d1, e1, f1, g1, i1, j1, k1, l1, m1, n1, o1⟩ := h1
  obtain ⟨a2, b2, c2, d2, e2, f2, g2, i2, j2, k2, l2, m2, n2, o2⟩ := h2
  exact ⟨a2.trans a1, b2.trans b1, c2.trans c1, d2.trans d1, e2.trans e1, f2.trans f1,
    g2.trans g1, i2.trans i1, j2.trans j1, k2.trans k1, l2.trans l1, m2.trans m1,
    n2.trans n1, o2.trans o1⟩

theorem nameAt_of_get (st : EngineState) (i : Nat) (a : Agent)
    (hget : st.agents.get? i = some a) : nameAt st i = a.name := by
  have h2 : st.agents[i]? = some a := by rw [← List.get?_eq_getElem?]; exact hget
  simp [nameAt, agentNames, List.getD, List.getElem?_map, h2]

/-- Running the loop over positions `idxs` on which no checkpoint fires
(intervention mode off, or the operator declines at each of them) processes
each agent in order, appends exactly one normal entry per agent, and leaves
every core field untouched. -/
theorem roundLoop_clean (env : Env) (r : Nat) (hist : List Msg) :
    ∀ (idxs : List Nat) (rest : List Nat) (st : EngineState) (acc : List Contribution),
      st.skipRemainingAgents = false →
      (∀ i ∈ idxs, st.userParticipation = true → env.interv r i = none) →
      (∀ i ∈ idxs, i < st.agents.length) →
      ∃ st', roundLoop env r hist (idxs ++ rest) st acc =
          roundLoop env r hist rest st'
            (acc ++ idxs.map (fun i => roundEntry env r (nameAt st i)))
        ∧ SameCore st st'
        ∧ st'.skipRemainingAgents = false
        ∧ st'.promptTrace.map traceHead =
            st.promptTrace.map traceHead ++ idxs.map (fun i => (r, nameAt st i)) := by
  intro idxs
  induction idxs with
  | nil =>
      intro rest st acc hskip _ _
      exact ⟨st, by simp, sameCore_refl st, hskip, by simp⟩
  | cons i idxs ih =>
      intro rest st acc hskip hclean hvalid
      have hi : i < st.agents.length := hvalid i (by simp)
      obtain ⟨a, hget⟩ : ∃ a, st.agents.get? i = some a :=
        ⟨st.agents.get ⟨i, hi⟩, List.get?_eq_get hi⟩
      have hcore := processAgent_core env r hist i a st hget
      obtain ⟨hsame1, hskip1, hup1, htrace1⟩ := hcore
      have hstep : roundLoop env r hist ((i :: idxs) ++ rest) st acc =
          roundLoop env r hist (idxs ++ rest) (processAgent env r hist i a st).1
            (acc ++ [roundEntry env r a.name]) := by
        simp only [List.cons_append, roundLoop, hskip, hget]
        rw [processAgent_snd]
        cases hup : (processAgent env r hist i a st).1.userParticipation with
        | false => simp [hup]
        | true =>
            have hupst : st.userParticipation = true := by rw [← hup1, hup]
            have hnone : env.interv r i = none := hclean i (by simp) hupst
            simp [hup, hnone]
      set st1 := (processAgent env r hist i a st).1 with hst1
      have hskips : st1.skipRemainingAgents = false := by rw [hskip1, hskip]
      have hclean1 : ∀ j ∈ idxs, st1.userParticipation = true → env.interv r j = none := by
        intro j hj hup
        exact hclean j (by simp [hj]) (by rw [← hup1, hup])
      have hvalid1 : ∀ j ∈ idxs, j < st1.agents.length := by
        intro j hj
        rw [hsame1.2.2.2.2.2.2.2.2.2.2.2.2.1]
        exact hvalid j (by simp [hj])
      obtain ⟨st', heq, hsame', hskip', htrace'⟩ :=
        ih rest st1 (acc ++ [roundEntry env r a.name]) hskips hclean1 hvalid1
      refine ⟨st', ?_, sameCore_trans hsame1 hsame', hskip', ?_⟩
      · rw [hstep, heq]
        congr 1
        have hnames : agentNames st1 = agentNames st := hsame1.2.2.2.2.2.2.2.2.2.2.2.2.2
        have hname_eq : ∀ j, nameAt st1 j = nameAt st j := by
          intro j; simp [nameAt, hnames]
        simp only [List.map_cons, List.append_assoc, List.singleton_append,
          nameAt_of_get st i a hget]
        congr 1
        exact congrArg (List.cons _) (List.map_congr_left fun j _ => by rw [hname_eq j])
      · rw [htrace', htrace1]
        have hnames : agentNames st1 = agentNames st := hsame1.2.2.2.2.2.2.2.2.2.2.2.2.2
        simp only [List.map_cons, List.append_assoc, List.singleton_append,
          nameAt_of_get st i a hget]
        congr 1
        exact congrArg (List.cons _) (List.map_congr_left fun j _ => by simp [nameAt, hnames])

theorem map_range_getD {α β : Type} (f : α → β) (d : α) :
    ∀ l : List α, (List.range l.length).map (fun i => f (l.getD i d)) = l.map f := by
  intro l
  induction l with
  | nil => rfl
  | cons x xs ih =>
      rw [List.length_cons, List.range_succ_eq_map]
      simp only [List.map_cons, List.map_map]
      refine congrArg₂ _ (by simp [List.getD]) ?_
      rw [← ih]
      exact List.map_congr_left fun j _ => by simp [List.getD]

/-- A round in which no checkpoint fires: the round log carries one normal
entry per agent, in `self.agents` order, and the engine core is untouched. -/
theorem execute_round_clean (env : Env) (r : Nat) (st : EngineState)
    (hclean : ∀ i, i < st.agents.length → st.userParticipation = true → env.interv r i = none) :
    ∃ st', execute_discussion_round env r st =
        (st', { roundNum := r, rtype := .normal,
                contributions := (agentNames st).map (roundEntry env r) })
      ∧ SameCore st st'
      ∧ st'.skipRemainingAgents = false
      ∧ st'.isRunning = st.isRunning
      ∧ st'.promptTrace.map traceHead =
          st.promptTrace.map traceHead ++ (agentNames st).map (fun n => (r, n)) := by
  set stR : EngineState := { st with skipRemainingAgents := false } with hstR
  have hcoreR : SameCore st stR := ⟨rfl, rfl, rfl, rfl, rfl, rfl, rfl, rfl, rfl, rfl, rfl, rfl, rfl, rfl⟩
  obtain ⟨st', heq, hsame, hskip, htrace⟩ :=
    roundLoop_clean env r (get_current_discussion_context stR.discussionLog)
      (List.range stR.agents.length) [] stR [] rfl
      (fun i _ hup => hclean i (by
        have : i ∈ List.range stR.agents.length := by assumption
        simpa using List.mem_range.mp this) hup)
      (fun i hi => List.mem_range.mp hi)
  have hentries : (List.range stR.agents.length).map (fun i => roundEntry env r (nameAt stR i))
      = (agentNames st).map (roundEntry env r) := by
    have h1 : stR.agents.length = (agentNames st).length := by simp [agentNames]
    have h2 : (fun i => roundEntry env r (nameAt stR i)) =
        (fun i => roundEntry env r ((agentNames st).getD i "")) := rfl
    rw [h2, h1]
    exact map_range_getD (roundEntry env r) "" (agentNames st)
  have hpairs : (List.range stR.agents.length).map (fun i => ((r : Nat), nameAt stR i))
      = (agentNames st).map (fun n => ((r : Nat), n)) := by
    have h1 : stR.agents.length = (agentNames st).length := by simp [agentNames]
    have h2 : (fun i => ((r : Nat), nameAt stR i)) =
        (fun i => ((r : Nat), (agentNames st).getD i "")) := rfl
    rw [h2, h1]
    exact map_range_getD (fun n => ((r : Nat), n)) "" (agentNames st)
  refine ⟨st', ?_, sameCore_trans hcoreR hsame, hskip, hsame.1, ?_⟩
  · simp only [List.append_nil, roundLoop, List.nil_append] at heq
    simp only [execute_discussion_round]
    rw [← hstR]
    rw [show get_current_discussion_context stR.discussionLog
        = get_current_discussion_context st.discussionLog from rfl,
      show List.range stR.agents.length = List.range st.agents.length from rfl] at heq
    rw [heq]
    rw [show List.map (fun i => roundEntry env r (nameAt stR i)) (List.range st.agents.length)
        = List.map (fun i => roundEntry env r (nameAt stR i)) (List.range stR.agents.length) from rfl,
      hentries]
  · rw [htrace]
    rw [hpairs]

/-- With intervention mode off, the scheduler runs every requested round to
completion: no round is lost, every round log holds one entry per agent, the
run never errors and `is_running` stays set. -/
theorem runRounds_off (env : Env) :
    ∀ (rounds : List Nat) (st : EngineState),
      st.userParticipation = false → st.isRunning = true →
      ∃ st', runRounds env rounds st = (st', false)
        ∧ st'.isRunning = true
        ∧ st'.userParticipation = false
        ∧ st'.discussionLog = st.discussionLog ++ rounds.map (cleanRound env (agentNames st))
        ∧ agentNames st' = agentNames st
        ∧ st'.userInterventions = st.userInterventions
        ∧ st'.status = st.status
        ∧ st'.maxRounds = st.maxRounds
        ∧ st'.medicalRecord = st.medicalRecord
        ∧ st'.questionText = st.questionText
        ∧ st'.decisionAgentOk = st.decisionAgentOk
        ∧ st'.handledTrace = st.handledTrace
        ∧ st'.currentRound = rounds.getLastD st.currentRound := by
  intro rounds
  induction rounds with
  | nil =>
      intro st hup hrun
      exact ⟨st, by simp [runRounds], hrun, hup, by simp, rfl, rfl, rfl, rfl, rfl, rfl, rfl, rfl,
        by simp [List.getLastD]⟩
  | cons r rest ih =>
      intro st hup hrun
      set stA : EngineState := { st with currentRound := r } with hstA
      have hupA : stA.userParticipation = false := hup
      have hrunA : stA.isRunning = true := hrun
      obtain ⟨st1, hex, hsame, hskip1, hrun1, htrace1⟩ :=
        execute_round_clean env r stA (fun i _ hu => absurd (hupA ▸ hu) (by simp [hupA]))
      set st2 : EngineState := { st1 with discussionLog := st1.discussionLog ++
        [{ roundNum := r, rtype := .normal,
           contributions := (agentNames stA).map (roundEntry env r) }] } with hst2
      have hup2 : st2.userParticipation = false := by
        show st1.userParticipation = false
        rw [hsame.2.2.2.1]; exact hupA
      have hrun2 : st2.isRunning = true := by
        show st1.isRunning = true
        rw [hsame.1]; exact hrunA
      obtain ⟨st', hrunrec, hA, hB, hC, hD, hE, hF, hG, hH, hI, hJ, hK, hL⟩ := ih st2 hup2 hrun2
      have hcheck : check_user_intervention env st2 r = false := by
        have h1 : st1.userParticipation = false := hup2
        simp [check_user_intervention, h1]
      have hnames2 : agentNames st2 = agentNames st := by
        show agentNames st1 = agentNames st
        exact hsame.2.2.2.2.2.2.2.2.2.2.2.2.2
      refine ⟨st', ?_, hA, hB, ?_, by rw [hD, hnames2], ?_, ?_, ?_, ?_, ?_, ?_, ?_, ?_⟩
      · show runRounds env (r :: rest) st = (st', false)
        simp only [runRounds]
        rw [← hstA]
        rw [if_pos hrunA, hex]
        simp only []
        rw [← hst2, hcheck]
        simp only [Bool.false_eq_true, if_false]
        exact hrunrec
      · rw [hC]
        show st1.discussionLog ++ _ ++ _ = st.discussionLog ++ _
        rw [hsame.2.2.2.2.1]
        show st.discussionLog ++ _ ++ _ = _
        rw [List.append_assoc]
        refine congrArg _ ?_
        rw [hnames2]
        simp only [List.map_cons, cleanRound, List.singleton_append]
        rfl
      · rw [hE]; exact hsame.2.2.2.2.2.1
      · rw [hF]; exact hsame.2.2.2.2.2.2.2.2.2.1
      · rw [hG]; exact hsame.2.2.1
      · rw [hH]; exact hsame.2.2.2.2.2.2.1
      · rw [hI]; exact hsame.2.2.2.2.2.2.2.1
      · rw [hJ]; exact hsame.2.2.2.2.2.2.2.2.2.2.1
      · rw [hK]; exact hsame.2.2.2.2.2.2.2.2.2.2.2.1
      · rw [hL]
        show rest.getLastD st1.currentRound = (r :: rest).getLastD st.currentRound
        rw [hsame.2.1]
        show rest.getLastD r = _
        rw [List.getLastD_cons]

/-- Shape of `start_discussion` when the loop finishes with `is_running` set:
the completed record over the loop's final state. -/
theorem start_discussion_completed (env : Env) (st0 st' : EngineState)
    (hr : runRounds env (List.range' 1 st0.maxRounds)
        { st0 with isRunning := true, currentRound := 0 } = (st', false))
    (hrun : st'.isRunning = true) :
    start_discussion env st0 =
      (.completed
        { rounds := st'.currentRound, rounds_completed := st'.currentRound,
          medicalRecord := st'.medicalRecord, questionText := st'.questionText,
          discussion_log := st'.discussionLog,
          user_interventions := st'.userInterventions,
          logic_reports := collect_logic_reports st'.discussionLog,
          clinical_summary := clinicalSummaryOf (generate_final_summary env st'),
          evaluation_metrics := metricsOf (generate_final_summary env st') },
       { st' with status := some "completed", isRunning := false }) := by
  simp only [start_discussion]
  rw [show ({ st0 with isRunning := true, currentRound := 0 } : EngineState).maxRounds
      = st0.maxRounds from rfl]
  rw [hr, hrun]
  simp

/-- Shape of `start_discussion` when a `Terminate` intervention cleared
`is_running`: the interrupted result, carrying only `rounds_completed`. -/
theorem start_discussion_interrupted (env : Env) (st0 st' : EngineState)
    (hr : runRounds env (List.range' 1 st0.maxRounds)
        { st0 with isRunning := true, currentRound := 0 } = (st', false))
    (hstop : st'.isRunning = false) :
    start_discussion env st0 =
      (.interrupted st'.currentRound, { st' with isRunning := false }) := by
  simp only [start_discussion]
  rw [show ({ st0 with isRunning := true, currentRound := 0 } : EngineState).maxRounds
      = st0.maxRounds from rfl]
  rw [hr, hstop]
  simp

/-- C1: with `max_rounds = 2`, three participants and intervention mode off,
`start_discussion` returns a completed record whose round log is exactly two
normal rounds of exactly three contribution entries each (six in total), and
the engine ends with `medical_context["status"] = "completed"`. -/
theorem c1_three_agents_two_rounds_completed (ps : List (String × String)) (env : Env)
    (mr q : String) (dOk : Bool) (hlen : ps.length = 3) :
    ∃ rec : CompleteResult,
      (start_discussion env (initState ps 2 false mr q dOk)).1 = .completed rec
      ∧ rec.discussion_log.length = 2
      ∧ (∀ rl ∈ rec.discussion_log, rl.rtype = .normal ∧ rl.contributions.length = 3)
      ∧ (rec.discussion_log.map (fun rl => rl.contributions.length)).sum = 6
      ∧ (start_discussion env (initState ps 2 false mr q dOk)).2.status = some "completed" := by
  obtain ⟨st', hr, hA, hB, hC, hD, hE, hF, hG, hH, hI, hJ, hK, hL⟩ :=
    runRounds_off env (List.range' 1 2)
      { initState ps 2 false mr q dOk with isRunning := true, currentRound := 0 } rfl rfl
  have hcomp := start_discussion_completed env (initState ps 2 false mr q dOk) st' hr hA
  set ns : List String :=
    agentNames { initState ps 2 false mr q dOk with isRunning := true, currentRound := 0 }
    with hns
  have hnslen : ns.length = 3 := by
    rw [hns]
    simp [agentNames, initState, hlen]
  have hlog : st'.discussionLog = [cleanRound env ns 1, cleanRound env ns 2] := by
    rw [hC]; rfl
  refine ⟨_, by rw [hcomp], ?_, ?_, ?_, by rw [hcomp]⟩
  · simp [hlog]
  · intro rl hrl
    rw [hlog] at hrl
    simp only [List.mem_cons, List.not_mem_nil, or_false] at hrl
    rcases hrl with h | h <;> subst h <;>
      simp [cleanRound, hnslen]
  · simp [hlog, cleanRound, hnslen]

/-- Witness for `c1_three_agents_two_rounds_completed` at a concrete input. -/
theorem c1_three_agents_two_rounds_completed_witness :
    ∃ rec : CompleteResult,
      (start_discussion
        ⟨fun _ n => .ok ("分析-" ++ n), fun _ _ => .ok "答", fun _ => .ok "终", fun _ _ => none,
         fun _ => false⟩
        (initState [("心内科", "s1"), ("神经科", "s2"), ("呼吸科", "s3")] 2 false "病历" "问题" true)).1
        = .completed rec
      ∧ rec.discussion_log.length = 2
      ∧ (∀ rl ∈ rec.discussion_log, rl.rtype = .normal ∧ rl.contributions.length = 3)
      ∧ (rec.discussion_log.map (fun rl => rl.contributions.length)).sum = 6
      ∧ (start_discussion
        ⟨fun _ n => .ok ("分析-" ++ n), fun _ _ => .ok "答", fun _ => .ok "终", fun _ _ => none,
         fun _ => false⟩
        (initState [("心内科", "s1"), ("神经科", "s2"), ("呼吸科", "s3")] 2 false "病历" "问题" true)).2.status
        = some "completed" :=
  c1_three_agents_two_rounds_completed
    [("心内科", "s1"), ("神经科", "s2"), ("呼吸科", "s3")]
    ⟨fun _ n => .ok ("分析-" ++ n), fun _ _ => .ok "答", fun _ => .ok "终", fun _ _ => none,
     fun _ => false⟩
    "病历" "问题" true rfl

/-- C3: in a round with `k` participants where any subset of the generate
calls fails (and no checkpoint fires), the round log still holds exactly `k`
entries in participant order; a failing participant's entry carries
`success=false` with the error, a succeeding one `success=true`; the engine
keeps running, and — with intervention mode off — every requested round is
still executed and logged afterwards, whatever the failures were. -/
theorem c3_participant_failures_tolerated (env : Env) (r : Nat) (st : EngineState)
    (hclean : ∀ i, i < st.agents.length → st.userParticipation = true → env.interv r i = none) :
    (execute_discussion_round env r st).2.contributions.length = st.agents.length
    ∧ (∀ i, i < st.agents.length →
        ∃ c, (execute_discussion_round env r st).2.contributions.get? i = some c
          ∧ c.agent = nameAt st i
          ∧ (∀ e, env.gen r (nameAt st i) = .error e →
              c.contribution = some ⟨false, none, some e, none⟩)
          ∧ (∀ t, env.gen r (nameAt st i) = .ok t →
              c.contribution = some ⟨true, some (make_response_concise t), none, none⟩))
    ∧ (execute_discussion_round env r st).1.isRunning = st.isRunning
    ∧ (st.userParticipation = false → st.isRunning = true → ∀ rounds : List Nat,
        ∃ st', runRounds env rounds st = (st', false)
          ∧ st'.discussionLog = st.discussionLog ++ rounds.map (cleanRound env (agentNames st))
          ∧ st'.isRunning = true) := by
  obtain ⟨stx, hex, hsame, hskip, hrunx, htrace⟩ := execute_round_clean env r st hclean
  refine ⟨?_, ?_, ?_, ?_⟩
  · rw [hex]
    simp [agentNames]
  · intro i hi
    rw [hex]
    have hi' : i < (agentNames st).length := by simpa [agentNames] using hi
    obtain ⟨nm, hnm⟩ : ∃ nm, (agentNames st).get? i = some nm :=
      ⟨(agentNames st).get ⟨i, hi'⟩, List.get?_eq_get hi'⟩
    have hnmat : nameAt st i = nm := by
      have h2 : (agentNames st)[i]? = some nm := by
        rw [← List.get?_eq_getElem?]; exact hnm
      simp [nameAt, List.getD, h2]
    have hget : ((agentNames st).map (roundEntry env r)).get? i = some (roundEntry env r nm) := by
      rw [List.get?_eq_getElem?] at hnm ⊢
      rw [List.getElem?_map, hnm]
      rfl
    refine ⟨roundEntry env r nm, hget, by simp [roundEntry, hnmat], ?_, ?_⟩
    · intro e he
      rw [hnmat] at he
      simp [roundEntry, analysisResultOf, hnmat, he]
    · intro t ht
      rw [hnmat] at ht
      simp [roundEntry, analysisResultOf, hnmat, ht]
  · rw [hex]
    exact hrunx
  · intro hup hrun rounds
    obtain ⟨st', hr, hA, _, hC, _⟩ := runRounds_off env rounds st hup hrun
    exact ⟨st', hr, hC, hA⟩

/-- Witness for `c3_participant_failures_tolerated`: two participants, the
first one failing. -/
theorem c3_participant_failures_tolerated_witness :
    (execute_discussion_round
      ⟨fun _ n => if n = "甲" then .error "超时" else .ok "分析", fun _ _ => .ok "答",
       fun _ => .ok "终", fun _ _ => none, fun _ => false⟩ 1
      (initState [("甲", "s1"), ("乙", "s2")] 2 false "病历" "问题" true)).2.contributions.length
      = 2 :=
  (c3_participant_failures_tolerated
    ⟨fun _ n => if n = "甲" then .error "超时" else .ok "分析", fun _ _ => .ok "答",
     fun _ => .ok "终", fun _ _ => none, fun _ => false⟩ 1
    (initState [("甲", "s1"), ("乙", "s2")] 2 false "病历" "问题" true)
    (fun _ _ h => absurd h (by simp [initState]))).1

theorem handle_skip_eq (env : Env) (st : EngineState) :
    handle_user_intervention env .skipRound st =
      ({ st with handledTrace := st.handledTrace ++ [.skipRound],
                 skipRemainingAgents := true }, true) := rfl

theorem handle_interrupt_eq (env : Env) (st : EngineState) :
    handle_user_intervention env .interrupt st =
      ({ st with handledTrace := st.handledTrace ++ [.interrupt],
                 isRunning := false }, true) := rfl

theorem map_range_take {α β : Type} (f : α → β) (d : α) :
    ∀ (m : Nat) (l : List α), m ≤ l.length →
      (List.range m).map (fun i => f (l.getD i d)) = (l.take m).map f := by
  intro m
  induction m with
  | zero => intro l _; simp
  | succ k ih =>
      intro l hm
      rw [List.range_succ, List.map_append, ih l (Nat.le_of_succ_le hm)]
      have hk : k < l.length := hm
      rw [List.take_succ]
      rw [List.map_append]
      refine congrArg _ ?_
      have h2 : l[k]? = some (l.get ⟨k, hk⟩) := by
        rw [← List.get?_eq_getElem?]
        exact List.get?_eq_get hk
      simp [h2, List.getD, List.get?_eq_getElem?]

/-- The loop step at a position whose checkpoint yields a `skip_round` or
`interrupt`: the handler runs on the post-contribution state and the loop
returns at once with the entries collected so far plus this agent's. -/
theorem roundLoop_fire (env : Env) (r : Nat) (hist : List Msg) (j : Nat) (rest : List Nat)
    (st : EngineState) (acc : List Contribution) (d : InterventionData)
    (hskip : st.skipRemainingAgents = false) (hup : st.userParticipation = true)
    (hj : j < st.agents.length) (hd : env.interv r j = some d)
    (hbrk : d = .interrupt ∨ d = .skipRound) :
    ∃ a, st.agents.get? j = some a ∧
      roundLoop env r hist (j :: rest) st acc =
        ((handle_user_intervention env d (processAgent env r hist j a st).1).1,
         acc ++ [roundEntry env r a.name]) := by
  obtain ⟨a, hget⟩ : ∃ a, st.agents.get? j = some a :=
    ⟨st.agents.get ⟨j, hj⟩, List.get?_eq_get hj⟩
  refine ⟨a, hget, ?_⟩
  have hup1 : (processAgent env r hist j a st).1.userParticipation = true := by
    rw [(processAgent_core env r hist j a st hget).2.2.1]; exact hup
  have hbrk2 : (handle_user_intervention env d (processAgent env r hist j a st).1).2 = true := by
    rcases hbrk with h | h <;> subst h <;> rfl
  simp only [roundLoop, hskip, hget]
  rw [processAgent_snd]
  simp only [hup1, hd, if_true, Bool.false_eq_true, if_false]
  rw [if_pos ⟨hbrk2, hbrk⟩]

theorem range_decomp (j n : Nat) (h : j < n) :
    List.range n = List.range j ++ (j :: List.range' (j + 1) (n - j - 1)) := by
  rw [List.range_eq_range', List.range_eq_range']
  have h1 : n = (n - j) + j := by omega
  rw [h1, ← List.range'_append 0 j (n - j) 1]
  have h2 : n - j = (n - j - 1) + 1 := by omega
  rw [h2, List.range'_succ]
  have h3 : 0 + 1 * j = j := by omega
  rw [h3]
  have h4 : j + 1 * 1 = j + 1 := by omega
  rw [h4]
  have h5 : n - j - 1 + 1 + j - j - 1 = n - j - 1 := by omega
  rw [h5]

/-- A round whose checkpoint after the agent at 0-based position `jj` yields a
`skip_round` or `interrupt` (and no earlier checkpoint fires): the round log
holds exactly the first `jj + 1` entries, the remaining participants are
neither logged nor invoked (the prompt observation log gains exactly `jj + 1`
pairs), the handled intervention reaches no `user_interventions` record, and
the state changes exactly as the handler dictates. -/
theorem execute_round_fire (env : Env) (r : Nat) (st : EngineState) (jj : Nat)
    (d : InterventionData)
    (hup : st.userParticipation = true)
    (hjj : jj < st.agents.length)
    (hd : env.interv r jj = some d)
    (hbrk : d = .interrupt ∨ d = .skipRound)
    (hnone : ∀ t, t < jj → env.interv r t = none) :
    ∃ st',
      execute_discussion_round env r st =
        (st', { roundNum := r, rtype := .normal,
                contributions := ((agentNames st).take (jj + 1)).map (roundEntry env r) })
      ∧ st'.promptTrace.map traceHead =
          st.promptTrace.map traceHead ++ ((agentNames st).take (jj + 1)).map (fun n => (r, n))
      ∧ st'.discussionLog = st.discussionLog
      ∧ st'.userInterventions = st.userInterventions
      ∧ st'.userParticipation = st.userParticipation
      ∧ st'.maxRounds = st.maxRounds
      ∧ st'.currentRound = st.currentRound
      ∧ st'.medicalRecord = st.medicalRecord
      ∧ st'.questionText = st.questionText
      ∧ st'.decisionAgentOk = st.decisionAgentOk
      ∧ agentNames st' = agentNames st
      ∧ st'.handledTrace = st.handledTrace ++ [d]
      ∧ (d = .interrupt → st'.isRunning = false)
      ∧ (d = .skipRound → st'.isRunning = st.isRunning ∧ st'.skipRemainingAgents = true) := by
  set stR : EngineState := { st with skipRemainingAgents := false } with hstR
  have hcoreR : SameCore st stR :=
    ⟨rfl, rfl, rfl, rfl, rfl, rfl, rfl, rfl, rfl, rfl, rfl, rfl, rfl, rfl⟩
  set hist := get_current_discussion_context stR.discussionLog with hhist
  have hnR : stR.agents.length = st.agents.length := rfl
  have hdecomp : List.range stR.agents.length =
      List.range jj ++ (jj :: List.range' (jj + 1) (stR.agents.length - jj - 1)) :=
    range_decomp jj stR.agents.length (by rw [hnR]; exact hjj)
  obtain ⟨st1, heq1, hsame1, hskip1, htrace1⟩ :=
    roundLoop_clean env r hist (List.range jj)
      (jj :: List.range' (jj + 1) (stR.agents.length - jj - 1)) stR [] rfl
      (fun t ht _ => hnone t (List.mem_range.mp ht))
      (fun t ht => lt_trans (List.mem_range.mp ht) (by rw [hnR]; exact hjj))
  have hup1 : st1.userParticipation = true := by
    rw [hsame1.2.2.2.1]; exact hup
  have hjj1 : jj < st1.agents.length := by
    rw [hsame1.2.2.2.2.2.2.2.2.2.2.2.2.1, hnR]; exact hjj
  obtain ⟨a, hget, heq2⟩ :=
    roundLoop_fire env r hist jj (List.range' (jj + 1) (stR.agents.length - jj - 1)) st1
      ([] ++ (List.range jj).map (fun i => roundEntry env r (nameAt stR i)))
      d hskip1 hup1 hjj1 hd hbrk
  have hsamePfull := processAgent_core env r hist jj a st1 hget
  have hsameP := hsamePfull.1
  have hS : SameCore st (processAgent env r hist jj a st1).1 :=
    sameCore_trans (sameCore_trans hcoreR hsame1) hsameP
  have hnames1 : agentNames st1 = agentNames st := hsame1.2.2.2.2.2.2.2.2.2.2.2.2.2
  have hname_a : a.name = nameAt st jj := by
    have h1 : nameAt st1 jj = a.name := nameAt_of_get st1 jj a hget
    rw [← h1]
    simp [nameAt, hnames1]
  have hnsl : jj < (agentNames st).length := by simpa [agentNames] using hjj
  have hjjopt : (agentNames st)[jj]? = some (nameAt st jj) := by
    have h2 : (agentNames st).get? jj = some ((agentNames st).get ⟨jj, hnsl⟩) :=
      List.get?_eq_get hnsl
    rw [← List.get?_eq_getElem?, h2]
    simp [nameAt, List.getD, List.get?_eq_getElem?, ← List.get?_eq_getElem?, h2]
  have htakeE : ((agentNames st).take (jj + 1)).map (roundEntry env r) =
      ((agentNames st).take jj).map (roundEntry env r) ++ [roundEntry env r (nameAt st jj)] := by
    rw [List.take_succ, List.map_append, hjjopt]
    rfl
  have htakeP : ((agentNames st).take (jj + 1)).map (fun n => ((r : Nat), n)) =
      ((agentNames st).take jj).map (fun n => ((r : Nat), n)) ++ [((r : Nat), nameAt st jj)] := by
    rw [List.take_succ, List.map_append, hjjopt]
    rfl
  have hrangeE : (List.range jj).map (fun i => roundEntry env r (nameAt stR i)) =
      ((agentNames st).take jj).map (roundEntry env r) := by
    have h2 : (fun i => roundEntry env r (nameAt stR i)) =
        (fun i => roundEntry env r ((agentNames st).getD i "")) := rfl
    rw [h2]
    exact map_range_take (roundEntry env r) "" jj (agentNames st) (Nat.le_of_lt hnsl)
  have hrangeP : (List.range jj).map (fun i => ((r : Nat), nameAt stR i)) =
      ((agentNames st).take jj).map (fun n => ((r : Nat), n)) := by
    have h2 : (fun i => ((r : Nat), nameAt stR i)) =
        (fun i => ((r : Nat), (agentNames st).getD i "")) := rfl
    rw [h2]
    exact map_range_take (fun n => ((r : Nat), n)) "" jj (agentNames st) (Nat.le_of_lt hnsl)
  have hres : roundLoop env r hist (List.range stR.agents.length) stR [] =
      ((handle_user_intervention env d (processAgent env r hist jj a st1).1).1,
       ([] ++ (List.range jj).map (fun i => roundEntry env r (nameAt stR i)))
         ++ [roundEntry env r a.name]) := by
    rw [hdecomp, heq1, heq2]
  have hexec : execute_discussion_round env r st =
      ((handle_user_intervention env d (processAgent env r hist jj a st1).1).1,
       { roundNum := r, rtype := .normal,
         contributions := ((agentNames st).take (jj + 1)).map (roundEntry env r) }) := by
    simp only [execute_discussion_round]
    rw [← hstR, ← hhist, hres]
    simp only [List.nil_append]
    rw [hrangeE, hname_a, ← htakeE]
  have htraceAll : (processAgent env r hist jj a st1).1.promptTrace.map traceHead =
      st.promptTrace.map traceHead ++ ((agentNames st).take (jj + 1)).map (fun n => ((r : Nat), n)) := by
    rw [hsamePfull.2.2.2, htrace1, hname_a, htakeP]
    have hx : List.map traceHead stR.promptTrace = List.map traceHead st.promptTrace := rfl
    rw [hx, hrangeP, List.append_assoc]
  rcases hbrk with rfl | rfl
  · refine ⟨_, hexec, ?_, ?_, ?_, ?_, ?_, ?_, ?_, ?_, ?_, ?_, ?_, fun _ => ?_, fun hc => ?_⟩
    · rw [handle_interrupt_eq]
      exact htraceAll
    · rw [handle_interrupt_eq]
      exact hS.2.2.2.2.1
    · rw [handle_interrupt_eq]
      exact hS.2.2.2.2.2.1
    · rw [handle_interrupt_eq]
      exact hS.2.2.2.1
    · rw [handle_interrupt_eq]
      exact hS.2.2.1
    · rw [handle_interrupt_eq]
      exact hS.2.1
    · rw [handle_interrupt_eq]
      exact hS.2.2.2.2.2.2.1
    · rw [handle_interrupt_eq]
      exact hS.2.2.2.2.2.2.2.1
    · rw [handle_interrupt_eq]
      exact hS.2.2.2.2.2.2.2.2.2.2.1
    · rw [handle_interrupt_eq]
      exact hS.2.2.2.2.2.2.2.2.2.2.2.2.2
    · rw [handle_interrupt_eq]
      show (processAgent env r hist jj a st1).1.handledTrace ++ [InterventionData.interrupt]
        = st.handledTrace ++ [InterventionData.interrupt]
      rw [hS.2.2.2.2.2.2.2.2.2.2.2.1]
    · rw [handle_interrupt_eq]
    · exact absurd hc (by simp)
  · refine ⟨_, hexec, ?_, ?_, ?_, ?_, ?_, ?_, ?_, ?_, ?_, ?_, ?_, fun hc => ?_, fun _ => ?_⟩
    · rw [handle_skip_eq]
      exact htraceAll
    · rw [handle_skip_eq]
      exact hS.2.2.2.2.1
    · rw [handle_skip_eq]
      exact hS.2.2.2.2.2.1
    · rw [handle_skip_eq]
      exact hS.2.2.2.1
    · rw [handle_skip_eq]
      exact hS.2.2.1
    · rw [handle_skip_eq]
      exact hS.2.1
    · rw [handle_skip_eq]
      exact hS.2.2.2.2.2.2.1
    · rw [handle_skip_eq]
      exact hS.2.2.2.2.2.2.2.1
    · rw [handle_skip_eq]
      exact hS.2.2.2.2.2.2.2.2.2.2.1
    · rw [handle_skip_eq]
      exact hS.2.2.2.2.2.2.2.2.2.2.2.2.2
    · rw [handle_skip_eq]
      show (processAgent env r hist jj a st1).1.handledTrace ++ [InterventionData.skipRound]
        = st.handledTrace ++ [InterventionData.skipRound]
      rw [hS.2.2.2.2.2.2.2.2.2.2.2.1]
    · exact absurd hc (by simp)
    · rw [handle_skip_eq]
      exact ⟨hS.1, rfl⟩

/-- Once `is_running` is cleared, the remaining loop iterations only set
`current_round` and break: no round executes and no state is touched. -/
theorem runRounds_stopped (env : Env) (rounds : List Nat) (st : EngineState)
    (hstop : st.isRunning = false) :
    ∃ st', runRounds env rounds st = (st', false)
      ∧ st'.isRunning = false
      ∧ st'.discussionLog = st.discussionLog
      ∧ st'.promptTrace = st.promptTrace
      ∧ st'.userInterventions = st.userInterventions
      ∧ st'.handledTrace = st.handledTrace
      ∧ st'.status = st.status
      ∧ st'.userParticipation = st.userParticipation := by
  cases rounds with
  | nil => exact ⟨st, by simp [runRounds], hstop, rfl, rfl, rfl, rfl, rfl, rfl⟩
  | cons r rest =>
      refine ⟨{ st with currentRound := r }, ?_, hstop, rfl, rfl, rfl, rfl, rfl, rfl⟩
      simp [runRounds, hstop]

/-- C4: a `SkipRound` handled at the checkpoint after participant `j` of `k`
(1 ≤ j < k) leaves exactly `j` contribution entries in that round's log — the
first `j` participants' entries in order — participants `j+1..k` are neither
logged nor invoked (the prompt log gains exactly those `j` calls), and the
discussion itself keeps running. -/
theorem c4_skip_round_truncates (env : Env) (r : Nat) (st : EngineState) (j : Nat)
    (hup : st.userParticipation = true)
    (h1 : 1 ≤ j) (hk : j < st.agents.length)
    (hd : env.interv r (j - 1) = some .skipRound)
    (hnone : ∀ t, t < j - 1 → env.interv r t = none) :
    (execute_discussion_round env r st).2.contributions.length = j
    ∧ (execute_discussion_round env r st).2.contributions =
        ((agentNames st).take j).map (roundEntry env r)
    ∧ (execute_discussion_round env r st).1.promptTrace.map traceHead =
        st.promptTrace.map traceHead ++ ((agentNames st).take j).map (fun n => (r, n))
    ∧ (execute_discussion_round env r st).1.isRunning = st.isRunning := by
  have hjj : j - 1 < st.agents.length := lt_of_le_of_lt (Nat.sub_le j 1) hk
  obtain ⟨st', hexec, htr, hlog, hui, hupx, hmax, hcur, hmr, hq, hdok, hnames, hht, hint, hskp⟩ :=
    execute_round_fire env r st (j - 1) .skipRound hup hjj hd (Or.inr rfl) hnone
  have hj1 : j - 1 + 1 = j := by omega
  rw [hj1] at hexec htr
  have hlen : ((agentNames st).take j).length = j := by
    rw [List.length_take]
    have : j ≤ (agentNames st).length := by
      simpa [agentNames] using Nat.le_of_lt hk
    omega
  refine ⟨?_, ?_, ?_, ?_⟩
  · rw [hexec]
    simpa using hlen
  · rw [hexec]
  · rw [hexec]
    exact htr
  · rw [hexec]
    exact (hskp rfl).1

/-- Witness for `c4_skip_round_truncates`: three participants, skip handled
after the second. -/
theorem c4_skip_round_truncates_witness :
    (execute_discussion_round
      ⟨fun _ n => .ok ("分析-" ++ n), fun _ _ => .ok "答", fun _ => .ok "终",
       fun r i => if r = 1 && i = 1 then some .skipRound else none, fun _ => false⟩ 1
      (initState [("甲", "s1"), ("乙", "s2"), ("丙", "s3")] 2 true "病历" "问题" true)).2.contributions.length
      = 2 :=
  (c4_skip_round_truncates
    ⟨fun _ n => .ok ("分析-" ++ n), fun _ _ => .ok "答", fun _ => .ok "终",
     fun r i => if r = 1 && i = 1 then some .skipRound else none, fun _ => false⟩ 1
    (initState [("甲", "s1"), ("乙", "s2"), ("丙", "s3")] 2 true "病历" "问题" true) 2
    rfl (by omega) (by simp [initState]) rfl
    (fun t ht => by
      have ht0 : t = 0 := by omega
      subst ht0
      rfl)).1

/-- C2: three participants, a `Terminate` handled at the checkpoint after the
second participant of round 1: participant 3 is never invoked, no further
round is issued (the prompt log holds exactly the two round-1 calls), the
round-1 log has exactly the first two entries, and `start_discussion` returns
the interrupted result carrying a `rounds_completed` count. -/
theorem c2_terminate_after_second_participant (ps : List (String × String)) (env : Env)
    (mr q : String) (dOk : Bool) (M : Nat)
    (hlen : ps.length = 3) (hM : 1 ≤ M)
    (hint : env.interv 1 1 = some .interrupt)
    (h0 : env.interv 1 0 = none)
    (hnoin : env.hasInputAfterRound 1 = false) :
    ∃ rc, (start_discussion env (initState ps M true mr q dOk)).1 =
        DiscussionResult.interrupted rc
    ∧ (start_discussion env (initState ps M true mr q dOk)).2.discussionLog =
        [{ roundNum := 1, rtype := .normal,
           contributions :=
             ((agentNames (initState ps M true mr q dOk)).take 2).map (roundEntry env 1) }]
    ∧ (start_discussion env (initState ps M true mr q dOk)).2.promptTrace.map traceHead =
        ((agentNames (initState ps M true mr q dOk)).take 2).map (fun n => ((1 : Nat), n))
    ∧ ((agentNames (initState ps M true mr q dOk)).take 2).length = 2 := by
  set st0 : EngineState := initState ps M true mr q dOk with hst0
  set stA : EngineState := { st0 with isRunning := true, currentRound := 0 } with hstA
  set stB : EngineState := { stA with currentRound := 1 } with hstB
  have hupB : stB.userParticipation = true := rfl
  have hlenB : 1 < stB.agents.length := by
    have h3 : stB.agents.length = 3 := by
      simp [hstB, hstA, hst0, initState, hlen]
    omega
  obtain ⟨st', hexec, htr, hlog, hui, hupx, hmax, hcur, hmr, hq2, hdok, hnames, hht, hintF, hskpF⟩ :=
    execute_round_fire env 1 stB 1 .interrupt hupB hlenB hint (Or.inl rfl)
      (fun t ht => by
        have ht0 : t = 0 := by omega
        subst ht0
        exact h0)
  have hstop : st'.isRunning = false := hintF rfl
  have hsplit : List.range' 1 M = 1 :: List.range' 2 (M - 1) := by
    have h2 : M = (M - 1) + 1 := by omega
    calc List.range' 1 M = List.range' 1 ((M - 1) + 1) := by rw [← h2]
      _ = 1 :: List.range' 2 (M - 1) := List.range'_succ 1 (M - 1) 1
  set rl1 : RoundLog :=
    ⟨1, .normal, none, ((agentNames stB).take (1 + 1)).map (roundEntry env 1), []⟩ with hrl1
  set st2 : EngineState := { st' with discussionLog := st'.discussionLog ++ [rl1] } with hst2
  have hrun2 : st2.isRunning = false := hstop
  have hck : check_user_intervention env st2 1 = false := by
    simp [check_user_intervention, hnoin]
  have step1 : runRounds env (List.range' 1 M) stA =
      runRounds env (List.range' 2 (M - 1)) st2 := by
    have hB : stB.isRunning = true := rfl
    rw [hsplit]
    simp only [runRounds, ← hstB, hB, if_true]
    rw [hexec]
    simp only [← hrl1, ← hst2, hck, Bool.false_eq_true, if_false]
  obtain ⟨stF, hrunF, hFrun, hFlog, hFtrace, hFui, hFht, hFstatus, hFup⟩ :=
    runRounds_stopped env (List.range' 2 (M - 1)) st2 hrun2
  have hrun : runRounds env (List.range' 1 st0.maxRounds)
      { st0 with isRunning := true, currentRound := 0 } = (stF, false) := by
    have hmx : st0.maxRounds = M := rfl
    rw [← hstA, hmx, step1, hrunF]
  have hfinal := start_discussion_interrupted env st0 stF hrun hFrun
  refine ⟨stF.currentRound, ?_, ?_, ?_, ?_⟩
  · rw [hfinal]
  · rw [hfinal]
    show stF.discussionLog = _
    rw [hFlog, hst2]
    show st'.discussionLog ++ [rl1] = _
    rw [hlog]
    rfl
  · rw [hfinal]
    show stF.promptTrace.map traceHead = _
    rw [hFtrace]
    show st'.promptTrace.map traceHead = _
    rw [htr]
    rfl
  · simp [hst0, initState, agentNames, hlen]

/-- Witness for `c2_terminate_after_second_participant` at a concrete input. -/
theorem c2_terminate_after_second_participant_witness :
    ∃ rc, (start_discussion
      ⟨fun _ n => .ok ("分析-" ++ n), fun _ _ => .ok "答", fun _ => .ok "终",
       fun r i => if r = 1 && i = 1 then some .interrupt else none, fun _ => false⟩
      (initState [("甲", "s1"), ("乙", "s2"), ("丙", "s3")] 2 true "病历" "问题" true)).1 =
        DiscussionResult.interrupted rc :=
  ⟨_, ((c2_terminate_after_second_participant
    [("甲", "s1"), ("乙", "s2"), ("丙", "s3")]
    ⟨fun _ n => .ok ("分析-" ++ n), fun _ _ => .ok "答", fun _ => .ok "终",
     fun r i => if r = 1 && i = 1 then some .interrupt else none, fun _ => false⟩
    "病历" "问题" true 2 rfl (by omega) rfl rfl rfl).choose_spec).1⟩

/-- C8 counterexample: with the decision agent present but its synthesis call
failing, the completed record's clinical summary is the `success=False` dict
`make_final_decision` built — a failed synthesis, not the deterministic
backup concatenation the claim promises. -/
theorem c8_counterexample :
    ∃ rec : CompleteResult,
      (start_discussion envFailSynth
        (initState [("甲", "s1")] 1 false "病历" "问题" true)).1 = .completed rec
      ∧ rec.clinical_summary = .decision ⟨false, none, some "超时"⟩
      ∧ ∀ s, rec.clinical_summary ≠ .text s := by
  obtain ⟨st', hr, hA, hB, hC, hD, hE, hF, hG, hH, hI, hJ, hK, hL⟩ :=
    runRounds_off envFailSynth (List.range' 1 1)
      { initState [("甲", "s1")] 1 false "病历" "问题" true with
        isRunning := true, currentRound := 0 } rfl rfl
  have hcomp := start_discussion_completed envFailSynth
    (initState [("甲", "s1")] 1 false "病历" "问题" true) st' hr hA
  have hdok : st'.decisionAgentOk = true := by rw [hJ]; rfl
  have hsum : generate_final_summary envFailSynth st' =
      .full ⟨false, none, some "超时"⟩ (assess_discussion_quality st')
        st'.discussionLog st'.userInterventions := by
    simp [generate_final_summary, hdok, make_final_decision, envFailSynth]
  refine ⟨_, by rw [hcomp], ?_, ?_⟩
  · show clinicalSummaryOf (generate_final_summary envFailSynth st') = _
    rw [hsum]
    rfl
  · intro s
    show clinicalSummaryOf (generate_final_summary envFailSynth st') ≠ _
    rw [hsum]
    simp [clinicalSummaryOf]

/-- C8 amended: aggregation never raises and always returns a summary value,
but the deterministic local fallback (`_generate_backup_summary`, a pure
function of the recorded log, consulting no environment) is used only when
the decision agent is unavailable (`None`); when the decision agent exists
and its synthesis call fails, the summary instead embeds the `success=False`
decision dict carrying the error. -/
theorem c8_fallback_only_when_agent_missing (env env2 : Env) (st : EngineState) :
    (st.decisionAgentOk = false →
      generate_final_summary env st = generate_backup_summary st
      ∧ generate_final_summary env st = generate_final_summary env2 st)
    ∧ (∀ e, st.decisionAgentOk = true →
        (∀ m, env.decisionGen m = .error e) →
        generate_final_summary env st =
          .full ⟨false, none, some e⟩ (assess_discussion_quality st)
            st.discussionLog st.userInterventions) := by
  constructor
  · intro hok
    constructor <;> simp [generate_final_summary, hok]
  · intro e hok hgen
    simp [generate_final_summary, hok, make_final_decision, hgen]

/-- Witness for `c8_fallback_only_when_agent_missing`: an engine without a
decision agent uses the backup, and one whose synthesis call raises returns
the failed decision dict. -/
theorem c8_fallback_only_when_agent_missing_witness :
    generate_final_summary envFailSynth
        (initState [("甲", "s1")] 1 false "病历" "问题" false) =
      generate_backup_summary (initState [("甲", "s1")] 1 false "病历" "问题" false)
    ∧ generate_final_summary envFailSynth
        (initState [("甲", "s1")] 1 false "病历" "问题" true) =
      .full ⟨false, none, some "超时"⟩
        (assess_discussion_quality (initState [("甲", "s1")] 1 false "病历" "问题" true))
        (initState [("甲", "s1")] 1 false "病历" "问题" true).discussionLog
        (initState [("甲", "s1")] 1 false "病历" "问题" true).userInterventions :=
  ⟨((c8_fallback_only_when_agent_missing envFailSynth envOk
      (initState [("甲", "s1")] 1 false "病历" "问题" false)).1 rfl).1,
   (c8_fallback_only_when_agent_missing envFailSynth envOk
      (initState [("甲", "s1")] 1 false "病历" "问题" true)).2 "超时" rfl (fun _ => rfl)⟩

theorem handle_ui_ht (env : Env) (d : InterventionData) (st : EngineState) :
    (handle_user_intervention env d st).1.userInterventions =
      st.userInterventions ++ (if nonSignal d then [recordOf d] else [])
    ∧ (handle_user_intervention env d st).1.handledTrace = st.handledTrace ++ [d] := by
  cases d with
  | questionToAgent t qq =>
      exact ⟨by simp [handle_user_intervention, nonSignal, recordOf], rfl⟩
  | broadcastQuestion qq =>
      by_cases hq : qq = "" <;>
        exact ⟨by simp [handle_user_intervention, hq, nonSignal, recordOf],
               by simp [handle_user_intervention, hq]⟩
  | addInformation info =>
      by_cases hq : info = "" <;>
        exact ⟨by simp [handle_user_intervention, hq, nonSignal, recordOf],
               by simp [handle_user_intervention, hq]⟩
  | skipRound => exact ⟨by simp [handle_user_intervention, nonSignal], rfl⟩
  | interrupt => exact ⟨by simp [handle_user_intervention, nonSignal], rfl⟩

theorem handle_records (env : Env) (d : InterventionData) (st : EngineState)
    (h : RecordsInvariant st) :
    RecordsInvariant (handle_user_intervention env d st).1 := by
  unfold RecordsInvariant
  rw [(handle_ui_ht env d st).1, (handle_ui_ht env d st).2, h, List.filter_append,
    List.map_append]
  refine congrArg _ ?_
  cases hd : nonSignal d <;> simp [List.filter, hd]

theorem processAgent_records (env : Env) (r : Nat) (hist : List Msg) (i : Nat) (a : Agent)
    (st : EngineState) (h : RecordsInvariant st) :
    RecordsInvariant (processAgent env r hist i a st).1 := h

theorem roundLoop_records (env : Env) (r : Nat) (hist : List Msg) :
    ∀ (idxs : List Nat) (st : EngineState) (acc : List Contribution),
      RecordsInvariant st → RecordsInvariant (roundLoop env r hist idxs st acc).1 := by
  intro idxs
  induction idxs with
  | nil => intro st acc h; exact h
  | cons i rest ih =>
      intro st acc h
      rw [roundLoop]
      dsimp only
      split
      · exact h
      · split
        · exact h
        · split
          · split
            · split
              · exact handle_records env _ _ h
              · exact ih _ _ (handle_records env _ _ h)
            · exact ih _ _ h
          · exact ih _ _ h

theorem execute_records (env : Env) (r : Nat) (st : EngineState)
    (h : RecordsInvariant st) :
    RecordsInvariant (execute_discussion_round env r st).1 :=
  roundLoop_records env r _ _ _ [] h

theorem runRounds_records (env : Env) :
    ∀ (rounds : List Nat) (st : EngineState),
      RecordsInvariant st → RecordsInvariant (runRounds env rounds st).1 := by
  intro rounds
  induction rounds with
  | nil => intro st h; exact h
  | cons r rest ih =>
      intro st h
      rw [runRounds]
      dsimp only
      split
      · split
        · exact execute_records env r _ h
        · exact ih _ (execute_records env r _ h)
      · exact h

theorem start_discussion_fields (env : Env) (st0 : EngineState) :
    (start_discussion env st0).2.userInterventions =
      (runRounds env (List.range' 1 st0.maxRounds)
        { st0 with isRunning := true, currentRound := 0 }).1.userInterventions
    ∧ (start_discussion env st0).2.handledTrace =
      (runRounds env (List.range' 1 st0.maxRounds)
        { st0 with isRunning := true, currentRound := 0 }).1.handledTrace
    ∧ (start_discussion env st0).2.discussionLog =
      (runRounds env (List.range' 1 st0.maxRounds)
        { st0 with isRunning := true, currentRound := 0 }).1.discussionLog
    ∧ (start_discussion env st0).2.currentRound =
      (runRounds env (List.range' 1 st0.maxRounds)
        { st0 with isRunning := true, currentRound := 0 }).1.currentRound
    ∧ (∀ rec, (start_discussion env st0).1 = .completed rec →
        rec.discussion_log =
          (runRounds env (List.range' 1 st0.maxRounds)
            { st0 with isRunning := true, currentRound := 0 }).1.discussionLog
        ∧ rec.user_interventions =
          (runRounds env (List.range' 1 st0.maxRounds)
            { st0 with isRunning := true, currentRound := 0 }).1.userInterventions)
    ∧ (∀ rc, (start_discussion env st0).1 = .interrupted rc →
        rc = (runRounds env (List.range' 1 st0.maxRounds)
          { st0 with isRunning := true, currentRound := 0 }).1.currentRound) := by
  have hmax : ({ st0 with isRunning := true, currentRound := 0 } : EngineState).maxRounds
      = st0.maxRounds := rfl
  simp only [start_discussion, hmax]
  cases h2 : (runRounds env (List.range' 1 st0.maxRounds)
      { st0 with isRunning := true, currentRound := 0 }).2 with
  | true =>
      rw [if_pos rfl]
      refine ⟨rfl, rfl, rfl, rfl, ?_, ?_⟩
      · intro rec hrec
        exact DiscussionResult.noConfusion hrec
      · intro rc hrc
        exact DiscussionResult.noConfusion hrc
  | false =>
      rw [if_neg (by simp)]
      cases h3 : (runRounds env (List.range' 1 st0.maxRounds)
          { st0 with isRunning := true, currentRound := 0 }).1.isRunning with
      | true =>
          rw [if_pos rfl]
          refine ⟨rfl, rfl, rfl, rfl, ?_, ?_⟩
          · intro rec hrec
            injection hrec with hx
            subst hx
            exact ⟨rfl, rfl⟩
          · intro rc hrc
            exact DiscussionResult.noConfusion hrc
      | false =>
          rw [if_neg (by simp)]
          refine ⟨rfl, rfl, rfl, rfl, ?_, ?_⟩
          · intro rec hrec
            exact DiscussionResult.noConfusion hrec
          · intro rc hrc
            injection hrc with hx
            subst hx
            rfl

/-- C6 amended: the completed record does aggregate the full round log and
the recorded interventions of the final state, but `user_interventions`
contains exactly the handled interventions of non-signal kinds
(QuestionToParticipant / BroadcastQuestion / AddInformation), in handling
order: SkipRound and Terminate are never recorded, because their handler
branches return before the recording step; and the interrupted result
carries only the `rounds_completed` counter, no log and no interventions. -/
theorem c6_record_aggregation (env : Env) (ps : List (String × String)) (M : Nat)
    (up : Bool) (mr q : String) (dOk : Bool) :
    (∀ rec, (start_discussion env (initState ps M up mr q dOk)).1 = .completed rec →
        rec.discussion_log = (start_discussion env (initState ps M up mr q dOk)).2.discussionLog
        ∧ rec.user_interventions =
            (start_discussion env (initState ps M up mr q dOk)).2.userInterventions)
    ∧ (start_discussion env (initState ps M up mr q dOk)).2.userInterventions =
        (((start_discussion env (initState ps M up mr q dOk)).2.handledTrace.filter
          nonSignal).map recordOf)
    ∧ (∀ rc, (start_discussion env (initState ps M up mr q dOk)).1 = .interrupted rc →
        rc = (start_discussion env (initState ps M up mr q dOk)).2.currentRound) := by
  obtain ⟨hUI, hHT, hLOG, hCUR, hCOMP, hINT⟩ :=
    start_discussion_fields env (initState ps M up mr q dOk)
  have hinv : RecordsInvariant (runRounds env
      (List.range' 1 (initState ps M up mr q dOk).maxRounds)
      { initState ps M up mr q dOk with isRunning := true, currentRound := 0 }).1 :=
    runRounds_records env _ _ rfl
  refine ⟨?_, ?_, ?_⟩
  · intro rec hrec
    obtain ⟨ha, hb⟩ := hCOMP rec hrec
    exact ⟨ha.trans hLOG.symm, hb.trans hUI.symm⟩
  · rw [hUI, hHT]
    exact hinv
  · intro rc hrc
    exact (hINT rc hrc).trans hCUR.symm

/-- C6 counterexample: a `SkipRound` is handled during round 1 of a
discussion that then completes — the round log visibly truncated to one entry
and the handler trace showing the handled intervention — yet the returned
record's `user_interventions` is empty: the processed intervention left no
entry, contradicting the claim that every processed intervention (including
SkipRound and Terminate) appears in the record. -/
theorem c6_counterexample :
    ∃ rec : CompleteResult,
      (start_discussion envSkipR1
        (initState [("甲", "s1"), ("乙", "s2")] 1 true "病历" "问题" true)).1 = .completed rec
      ∧ (start_discussion envSkipR1
          (initState [("甲", "s1"), ("乙", "s2")] 1 true "病历" "问题" true)).2.handledTrace
          = [.skipRound]
      ∧ rec.discussion_log.length = 1
      ∧ (∀ rl ∈ rec.discussion_log, rl.contributions.length = 1)
      ∧ rec.user_interventions = [] := by
  set st0 : EngineState := initState [("甲", "s1"), ("乙", "s2")] 1 true "病历" "问题" true
    with hst0
  set stA : EngineState := { st0 with isRunning := true, currentRound := 0 } with hstA
  set stB : EngineState := { stA with currentRound := 1 } with hstB
  have hlenB : 0 < stB.agents.length := by
    have h2 : stB.agents.length = 2 := by simp [hstB, hstA, hst0, initState]
    omega
  obtain ⟨st', hexec, htr, hlog, hui, hupx, hmax, hcur, hmr, hq2, hdok, hnames, hht, hintF, hskpF⟩ :=
    execute_round_fire envSkipR1 1 stB 0 .skipRound rfl hlenB rfl (Or.inr rfl)
      (fun t ht => absurd ht (Nat.not_lt_zero t))
  have hrunning : st'.isRunning = true := (hskpF rfl).1
  set rl1 : RoundLog :=
    ⟨1, .normal, none, ((agentNames stB).take (0 + 1)).map (roundEntry envSkipR1 1), []⟩
    with hrl1
  set st2 : EngineState := { st' with discussionLog := st'.discussionLog ++ [rl1] } with hst2
  have hrun2 : st2.isRunning = true := hrunning
  have hck : check_user_intervention envSkipR1 st2 1 = false := by
    simp [check_user_intervention, envSkipR1]
  have hrun : runRounds envSkipR1 (List.range' 1 st0.maxRounds)
      { st0 with isRunning := true, currentRound := 0 } = (st2, false) := by
    have hB : stB.isRunning = true := rfl
    rw [← hstA]
    rw [show List.range' 1 st0.maxRounds = [1] from rfl]
    simp only [runRounds, ← hstB, hB, if_true]
    rw [hexec]
    simp only [← hrl1, ← hst2, hck, Bool.false_eq_true, if_false]
  have hcomp := start_discussion_completed envSkipR1 st0 st2 hrun hrun2
  refine ⟨_, by rw [hcomp], ?_, ?_, ?_, ?_⟩
  · rw [hcomp]
    show st2.handledTrace = _
    rw [hst2]
    show st'.handledTrace = _
    rw [hht]
    rfl
  · show st2.discussionLog.length = 1
    rw [hst2]
    show (st'.discussionLog ++ [rl1]).length = 1
    rw [hlog]
    rfl
  · intro rl hrl
    show rl.contributions.length = 1
    have hlogeq : st2.discussionLog = [rl1] := by
      rw [hst2]
      show st'.discussionLog ++ [rl1] = [rl1]
      rw [hlog]
      rfl
    rw [hlogeq] at hrl
    simp only [List.mem_singleton] at hrl
    subst hrl
    rw [hrl1]
    simp [agentNames, hstB, hstA, hst0, initState]
  · show st2.userInterventions = []
    rw [hst2]
    show st'.userInterventions = []
    rw [hui]
    rfl

/-- Witness for `c6_record_aggregation`: a run with a handled
`QuestionToParticipant` and a handled `SkipRound`, whose final recorded
interventions are exactly the non-signal ones of the handled trace. -/
theorem c6_record_aggregation_witness :
    (start_discussion envMixedInterv
      (initState [("甲", "s1"), ("乙", "s2")] 2 true "病历" "问题" true)).2.userInterventions =
      (((start_discussion envMixedInterv
        (initState [("甲", "s1"), ("乙", "s2")] 2 true "病历" "问题" true)).2.handledTrace.filter
          nonSignal).map recordOf) :=
  (c6_record_aggregation envMixedInterv [("甲", "s1"), ("乙", "s2")] 2 true "病历" "问题" true).2.1

set_option maxRecDepth 100000 in
/-- C7 (evaluation of the code at the failing input): an `AddInformation`
intervention handled at the checkpoint after the last participant of round 1
is recorded in the engine's medical context and in the handled trace, yet
every message list handed to the backend — in round 2 exactly as in round
1 — is identical, character for character, to the run in which the operator
never intervened: the added information reaches no participant prompt of any
round, because `set_shared_history` replaces each agent's message list at the
start of every round (discarding the `update_context` notification) and the
analyze message embeds only the original `medical_record`. -/
theorem c7_addinformation_never_visible :
    (start_discussion envAddInfo
      (initState [("甲", "sa"), ("乙", "sb")] 2 true "病历" "问题" true)).2.handledTrace
      = [.addInformation "血钾6.1mmol/L"]
    ∧ (start_discussion envAddInfo
      (initState [("甲", "sa"), ("乙", "sb")] 2 true "病历" "问题" true)).2.additionalInfo
      = ["血钾6.1mmol/L"]
    ∧ (start_discussion envOk
      (initState [("甲", "sa"), ("乙", "sb")] 2 true "病历" "问题" true)).2.handledTrace = []
    ∧ (start_discussion envAddInfo
      (initState [("甲", "sa"), ("乙", "sb")] 2 true "病历" "问题" true)).2.promptTrace
      = (start_discussion envOk
        (initState [("甲", "sa"), ("乙", "sb")] 2 true "病历" "问题" true)).2.promptTrace
    ∧ ((start_discussion envAddInfo
      (initState [("甲", "sa"), ("乙", "sb")] 2 true "病历" "问题" true)).2.promptTrace.map
        traceHead)
      = [(1, "甲"), (1, "乙"), (2, "甲"), (2, "乙")] := by
  refine ⟨by decide, by decide, by decide, by decide, by decide⟩

theorem lastN_self {α : Type} (n : Nat) (l : List α) (h : l.length ≤ n) : lastN n l = l := by
  unfold lastN
  have h0 : l.length - n = 0 := by omega
  rw [h0]
  exact List.drop_zero l

theorem lastN_length_le {α : Type} (n : Nat) (l : List α) : (lastN n l).length ≤ n := by
  unfold lastN
  rw [List.length_drop]
  omega

theorem contextTextLines_ne_nil (log : List RoundLog) (h : log ≠ []) :
    contextTextLines log ≠ [] := by
  have hl : lastN 3 log ≠ [] := by
    intro hc
    have h1 : (lastN 3 log).length = 0 := by rw [hc]; rfl
    unfold lastN at h1
    rw [List.length_drop] at h1
    have h2 : log.length = 0 := by omega
    exact h (List.eq_nil_of_length_eq_zero h2)
  unfold contextTextLines
  cases hx : lastN 3 log with
  | nil => exact absurd hx hl
  | cons rd rest => simp [roundLines]

/-- C9: the digest is built from exactly the most recent 3 rounds of the log
(`log[-3:]`); for an empty log it is the single no-history sentinel, else a
single system message joining the context lines; every nonempty contribution
of the window yields a line prefixed by its participant label with its text
truncated at the 150-character budget, the ellipsis marker appended exactly
when the text exceeds the budget. -/
theorem c9_digest_window_truncation (log : List RoundLog) :
    (log = [] → get_current_discussion_context log = [noHistoryMsg])
    ∧ get_current_discussion_context log = get_current_discussion_context (lastN 3 log)
    ∧ (log ≠ [] → get_current_discussion_context log =
        [⟨"system", "之前的讨论摘要:\n" ++ String.intercalate "\n" (contextTextLines log)⟩])
    ∧ (∀ rd ∈ lastN 3 log, ∀ c ∈ rd.contributions,
        contribDigestText rd.rtype c ≠ "" →
          ("  " ++ c.agent ++ ": " ++ shorten150 (contribDigestText rd.rtype c))
            ∈ contextTextLines log)
    ∧ (∀ s : String, 150 < s.length → shorten150 s = s.take 150 ++ "...")
    ∧ (∀ s : String, s.length ≤ 150 → shorten150 s = s) := by
  have hsame : contextTextLines (lastN 3 log) = contextTextLines log := by
    unfold contextTextLines
    rw [lastN_self 3 (lastN 3 log) (lastN_length_le 3 log)]
  refine ⟨?_, ?_, ?_, ?_, ?_, ?_⟩
  · intro h
    subst h
    rfl
  · unfold get_current_discussion_context
    rw [hsame]
  · intro h
    unfold get_current_discussion_context
    have hne := contextTextLines_ne_nil log h
    simp [hne]
  · intro rd hrd c hc ht
    unfold contextTextLines
    rw [List.mem_flatMap]
    refine ⟨rd, hrd, ?_⟩
    unfold roundLines
    refine List.mem_cons_of_mem _ ?_
    rw [List.mem_filterMap]
    refine ⟨c, hc, ?_⟩
    unfold contribLine
    simp [ht]
  · intro s hs
    unfold shorten150
    rw [if_pos hs]
  · intro s hs
    unfold shorten150
    rw [if_neg (by omega)]

set_option maxRecDepth 100000 in
/-- Witness for `c9_digest_window_truncation`: a 160-character contribution
appears in the digest truncated to 150 characters plus the marker. -/
theorem c9_digest_window_truncation_witness :
    ("  甲: " ++ shorten150 (String.mk (List.replicate 160 'a')))
      ∈ contextTextLines
        [⟨1, .normal, none,
          [⟨"甲", some ⟨true, some (String.mk (List.replicate 160 'a')), none, none⟩,
            none, none, none⟩], []⟩]
    ∧ shorten150 (String.mk (List.replicate 160 'a'))
      = (String.mk (List.replicate 160 'a')).take 150 ++ "..." :=
  ⟨((c9_digest_window_truncation
      [⟨1, .normal, none,
        [⟨"甲", some ⟨true, some (String.mk (List.replicate 160 'a')), none, none⟩,
          none, none, none⟩], []⟩]).2.2.2.1)
    ⟨1, .normal, none,
      [⟨"甲", some ⟨true, some (String.mk (List.replicate 160 'a')), none, none⟩,
        none, none, none⟩], []⟩ (by decide)
    ⟨"甲", some ⟨true, some (String.mk (List.replicate 160 'a')), none, none⟩,
      none, none, none⟩ (by decide) (by decide),
   ((c9_digest_window_truncation
      [⟨1, .normal, none,
        [⟨"甲", some ⟨true, some (String.mk (List.replicate 160 'a')), none, none⟩,
          none, none, none⟩], []⟩]).2.2.2.2.1)
    (String.mk (List.replicate 160 'a')) (by decide)⟩

end ClinicalEngine
